import Mathlib

/-!
# CHIP-8 interpreter: shallow embedding of `Chip8.cpp` / `Chip8.h`

The interpreter state `Chip` mirrors the data members of the C++ class.
Fixed-size arrays are total functions from indices; every access whose index
can leave the array in the C++ code is guarded here and yields `none`
(undefined behaviour in the source).  Machine integers are natural numbers
with the truncation of each store written out (`% 256`, `% 65536`, or a
conversion from a signed intermediate result).
-/

namespace Chip8

/-! ## Constants of `Chip8.h` -/

def OUTPUT_WIDTH : Nat := 64
def OUTPUT_HEIGHT : Nat := 32
def HEAP_SIZE : Nat := 4096

/-! ## Integer conversions -/

/-- Conversion of a signed intermediate result to `uint8_t`. -/
def toU8 (i : Int) : Nat := (i % 256).toNat

/-- Conversion of a signed intermediate result to `uint16_t`. -/
def toU16 (i : Int) : Nat := (i % 65536).toNat

/-- Conversion of a signed intermediate result to `uint32_t`. -/
def toU32 (i : Int) : Nat := (i % 4294967296).toNat

/-- Value of a C++ `bool` used as an integer. -/
def boolToNat (b : Bool) : Nat := if b then 1 else 0

/-- Array store: the array `f` with element `i` replaced by `v`. -/
def write {α : Type} (f : Nat → α) (i : Nat) (v : α) : Nat → α :=
  fun j => if j = i then v else f j

/-! ## State -/

/-- The three quirk flags of `QuirkStorage.h`. -/
structure QuirkStorage where
  mModernShift : Bool
  mModernLoadStore : Bool
  mSuperChipJump : Bool
deriving DecidableEq

/-- Flag values set by `QuirkStorage::ResetToDefault`. -/
def QuirkStorage.ResetToDefault : QuirkStorage :=
  { mModernShift := false, mModernLoadStore := true, mSuperChipJump := false }

/-- Data members of class `Chip`.  `mStack` has its top at the head. -/
structure Chip where
  mProgramCounter : Nat
  mIndexRegister : Nat
  mVariableRegisters : Nat → Nat
  mHeap : Nat → Nat
  mStack : List Nat
  mDisplayOutput : Nat → Nat
  mQuirks : QuirkStorage
  mInstruction : Nat
  mDelayTimer : Nat
  mSoundTimer : Nat
  mKeypad : Nat → Bool

/-- Font data loaded into the reserved portion of memory. -/
def gFontData : List Nat :=
  [0xF0, 0x90, 0x90, 0x90, 0xF0,
   0x20, 0x60, 0x20, 0x20, 0x70,
   0xF0, 0x10, 0xF0, 0x80, 0xF0,
   0xF0, 0x10, 0xF0, 0x10, 0xF0,
   0x90, 0x90, 0xF0, 0x10, 0x10,
   0xF0, 0x80, 0xF0, 0x10, 0xF0,
   0xF0, 0x80, 0xF0, 0x90, 0xF0,
   0xF0, 0x10, 0x20, 0x40, 0x40,
   0xF0, 0x90, 0xF0, 0x90, 0xF0,
   0xF0, 0x90, 0xF0, 0x10, 0xF0,
   0xF0, 0x90, 0xF0, 0x90, 0x90,
   0xE0, 0x90, 0xE0, 0x90, 0xE0,
   0xF0, 0x80, 0x80, 0x80, 0xF0,
   0xE0, 0x90, 0x90, 0x90, 0xE0,
   0xF0, 0x80, 0xF0, 0x80, 0xF0,
   0xF0, 0x80, 0xF0, 0x80, 0x80]

/-- Decode masks, indexed by the first nibble of the instruction. -/
def mOpcodeMasks : List Nat :=
  [0xFFFF, 0xF000, 0xF000, 0xF000, 0xF000, 0xF00F, 0xF000, 0xF000,
   0xF00F, 0xF000, 0xF000, 0xF000, 0xF000, 0xF000, 0xF0FF, 0xF0FF]

/-- State built by the constructor `Chip::Chip`.  `mHeap` and `mDisplayOutput`
have no initialiser in the class, so their prior contents `heap0` and
`display0` are parameters; the font is copied to `0x50`. -/
def Chip.construct (heap0 display0 : Nat → Nat) : Chip :=
  { mProgramCounter := 0x200
    mIndexRegister := 0
    mVariableRegisters := fun _ => 0
    mHeap := fun a =>
      if 0x50 ≤ a ∧ a < 0x50 + gFontData.length then gFontData.getD (a - 0x50) 0 else heap0 a
    mStack := []
    mDisplayOutput := display0
    mQuirks := QuirkStorage.ResetToDefault
    mInstruction := 0
    mDelayTimer := 0
    mSoundTimer := 0
    mKeypad := fun _ => false }

/-! ## Operand fields -/

def GetX (c : Chip) : Nat := (c.mInstruction >>> 8) &&& 0x0F
def GetY (c : Chip) : Nat := (c.mInstruction >>> 4) &&& 0x0F
def GetN (c : Chip) : Nat := c.mInstruction &&& 0x0F
def GetNN (c : Chip) : Nat := c.mInstruction &&& 0xFF
def GetNNN (c : Chip) : Nat := c.mInstruction &&& 0xFFF

/-! ## Fetch, decode, timers -/

/-- `Chip::Fetch`: read the big-endian word at the program counter and step
past it.  Reading outside `mHeap` is undefined in the source: `none`. -/
def Fetch (c : Chip) : Option Chip :=
  if c.mProgramCounter < HEAP_SIZE ∧ c.mProgramCounter + 1 < HEAP_SIZE then
    some { c with
      mInstruction :=
        ((c.mHeap c.mProgramCounter <<< 8) ||| c.mHeap (c.mProgramCounter + 1)) % 65536
      mProgramCounter := (c.mProgramCounter + 2) % 65536 }
  else none

/-- `Chip::Decode`: mask the instruction by the mask of its first nibble. -/
def Decode (c : Chip) : Nat :=
  c.mInstruction &&& mOpcodeMasks.getD (c.mInstruction >>> 12) 0

/-- `Chip::DecrementTimers`. -/
def DecrementTimers (c : Chip) : Chip :=
  let c1 :=
    if c.mDelayTimer > 0 then { c with mDelayTimer := toU8 ((c.mDelayTimer : Int) - 1) } else c
  if c1.mSoundTimer > 0 then { c1 with mSoundTimer := toU8 ((c1.mSoundTimer : Int) - 1) } else c1

/-! ## Instruction handlers -/

def Op_ClearScreen (c : Chip) : Chip :=
  { c with mDisplayOutput := fun i =>
      if i < OUTPUT_WIDTH * OUTPUT_HEIGHT then 0 else c.mDisplayOutput i }

/-- `Chip::Op_PopSubroutine`; `top()` of an empty stack is undefined: `none`. -/
def Op_PopSubroutine (c : Chip) : Option Chip :=
  match c.mStack with
  | [] => none
  | top :: rest => some { c with mProgramCounter := top, mStack := rest }

def Op_Jump (c : Chip) : Chip :=
  { c with mProgramCounter := GetNNN c }

def Op_PushSubroutine (c : Chip) : Chip :=
  { c with mStack := c.mProgramCounter :: c.mStack, mProgramCounter := GetNNN c }

def Op_SkipIfVxNnEqual (c : Chip) : Chip :=
  { c with mProgramCounter :=
      (c.mProgramCounter
        + boolToNat (decide (c.mVariableRegisters (GetX c) = GetNN c)) * 2) % 65536 }

def Op_SkipIfVxNnNotEqual (c : Chip) : Chip :=
  { c with mProgramCounter :=
      (c.mProgramCounter
        + boolToNat (decide (c.mVariableRegisters (GetX c) ≠ GetNN c)) * 2) % 65536 }

def Op_SkipIfVxVyEqual (c : Chip) : Chip :=
  { c with mProgramCounter :=
      (c.mProgramCounter
        + boolToNat (decide (c.mVariableRegisters (GetX c) = c.mVariableRegisters (GetY c))) * 2)
        % 65536 }

def Op_SetVxToNn (c : Chip) : Chip :=
  { c with mVariableRegisters := write c.mVariableRegisters (GetX c) (GetNN c) }

def Op_AddNnToVx (c : Chip) : Chip :=
  { c with mVariableRegisters :=
      write c.mVariableRegisters (GetX c) ((c.mVariableRegisters (GetX c) + GetNN c) % 256) }

def Op_SetVxToVy (c : Chip) : Chip :=
  { c with mVariableRegisters :=
      write c.mVariableRegisters (GetX c) (c.mVariableRegisters (GetY c)) }

def Op_BinaryOR (c : Chip) : Chip :=
  { c with mVariableRegisters :=
      write c.mVariableRegisters (GetX c)
            (c.mVariableRegisters (GetX c) ||| c.mVariableRegisters (GetY c)) }

def Op_BinaryAND (c : Chip) : Chip :=
  { c with mVariableRegisters :=
      write c.mVariableRegisters (GetX c)
            (c.mVariableRegisters (GetX c) &&& c.mVariableRegisters (GetY c)) }

def Op_LogicalXOR (c : Chip) : Chip :=
  { c with mVariableRegisters :=
      write c.mVariableRegisters (GetX c)
            (c.mVariableRegisters (GetX c) ^^^ c.mVariableRegisters (GetY c)) }

/-- `Chip::Op_AddWithCarry`: the 16-bit sum is taken first, then its low byte
is stored to `Vx`, and last its high byte to `VF`. -/
def Op_AddWithCarry (c : Chip) : Chip :=
  let x := GetX c
  let sum := (c.mVariableRegisters x + c.mVariableRegisters (GetY c)) % 65536
  let regs1 := write c.mVariableRegisters x (sum % 256)
  { c with mVariableRegisters := write regs1 0xF ((sum >>> 8) % 256) }

/-- `Chip::Op_SubtractVyFromVx`.  `vx` and `vy` are references into the
register array: the comparison that yields `VF` reads both registers after
the difference has been stored through `vx`. -/
def Op_SubtractVyFromVx (c : Chip) : Chip :=
  let x := GetX c
  let y := GetY c
  let regs1 := write c.mVariableRegisters x
    (toU8 ((c.mVariableRegisters x : Int) - (c.mVariableRegisters y : Int)))
  { c with mVariableRegisters := write regs1 0xF (boolToNat (decide (regs1 x ≥ regs1 y))) }

/-- `Chip::Op_SubtractVxfromVy`, with the same reference semantics as
`Op_SubtractVyFromVx`. -/
def Op_SubtractVxfromVy (c : Chip) : Chip :=
  let x := GetX c
  let y := GetY c
  let regs1 := write c.mVariableRegisters x
    (toU8 ((c.mVariableRegisters y : Int) - (c.mVariableRegisters x : Int)))
  { c with mVariableRegisters := write regs1 0xF (boolToNat (decide (regs1 y ≥ regs1 x))) }

/-- `Chip::Op_ShiftRight`: `VF` is stored first, `Vx` second. -/
def Op_ShiftRight (c : Chip) : Chip :=
  let x := GetX c
  let value :=
    if c.mQuirks.mModernShift then c.mVariableRegisters x else c.mVariableRegisters (GetY c)
  let regs1 := write c.mVariableRegisters 0xF (value &&& 0x01)
  { c with mVariableRegisters := write regs1 x (value >>> 1) }

/-- `Chip::Op_ShiftLeft`: `VF` is stored first, `Vx` second. -/
def Op_ShiftLeft (c : Chip) : Chip :=
  let x := GetX c
  let value :=
    if c.mQuirks.mModernShift then c.mVariableRegisters x else c.mVariableRegisters (GetY c)
  let regs1 := write c.mVariableRegisters 0xF ((value >>> 7) &&& 0x01)
  { c with mVariableRegisters := write regs1 x ((value <<< 1) % 256) }

def Op_SkipIfVxVyNotEqual (c : Chip) : Chip :=
  { c with mProgramCounter :=
      (c.mProgramCounter
        + boolToNat (decide (c.mVariableRegisters (GetX c) ≠ c.mVariableRegisters (GetY c))) * 2)
        % 65536 }

def Op_SetIndexRegister (c : Chip) : Chip :=
  { c with mIndexRegister := GetNNN c }

def Op_JumpWithOffset (c : Chip) : Chip :=
  if c.mQuirks.mSuperChipJump then
    let x := GetX c
    let pc1 := ((x <<< 8) ||| GetNN c) % 65536
    { c with mProgramCounter := (pc1 + c.mVariableRegisters x) % 65536 }
  else
    { c with mProgramCounter := (GetNNN c + c.mVariableRegisters 0) % 65536 }

/-- `Chip::Op_Random`; `rnd` is the value drawn from `mRandDist(mRng)`. -/
def Op_Random (rnd : Nat) (c : Chip) : Chip :=
  let random := rnd % 256
  { c with mVariableRegisters := write c.mVariableRegisters (GetX c) (random &&& GetNN c) }

/-- `Chip::Op_SkipIfKeyPressed`; `mKeypad` has 16 entries, an index beyond
them is undefined: `none`. -/
def Op_SkipIfKeyPressed (c : Chip) : Option Chip :=
  if c.mVariableRegisters (GetX c) < 16 then
    some { c with mProgramCounter :=
      (c.mProgramCounter + boolToNat (c.mKeypad (c.mVariableRegisters (GetX c))) * 2) % 65536 }
  else none

def Op_SkipIfKeyNotPressed (c : Chip) : Option Chip :=
  if c.mVariableRegisters (GetX c) < 16 then
    some { c with mProgramCounter :=
      (c.mProgramCounter + boolToNat (!c.mKeypad (c.mVariableRegisters (GetX c))) * 2) % 65536 }
  else none

def Op_CacheDelayTimer (c : Chip) : Chip :=
  { c with mVariableRegisters := write c.mVariableRegisters (GetX c) c.mDelayTimer }

def Op_SetDelayTimer (c : Chip) : Chip :=
  { c with mDelayTimer := c.mVariableRegisters (GetX c) }

def Op_SetSoundTimer (c : Chip) : Chip :=
  { c with mSoundTimer := c.mVariableRegisters (GetX c) }

def Op_AddToIndexRegister (c : Chip) : Chip :=
  { c with mIndexRegister := (c.mIndexRegister + c.mVariableRegisters (GetX c)) % 65536 }

/-- `Chip::Op_GetKey`: the loop over `i = 0 .. 15` returns at the first
pressed key; when it finds none the program counter is moved back. -/
def Op_GetKey (c : Chip) : Chip :=
  match (List.range 16).find? (fun i => c.mKeypad i) with
  | some i => { c with mVariableRegisters := write c.mVariableRegisters (GetX c) (i % 256) }
  | none => { c with mProgramCounter := toU16 ((c.mProgramCounter : Int) - 2) }

def Op_SetFontCharacter (c : Chip) : Chip :=
  let characterIndex := (c.mVariableRegisters (GetX c) * 5) % 256
  { c with mIndexRegister := c.mHeap (0x50 + characterIndex) }

/-- `Chip::Op_BinaryToDecimal`; a store outside `mHeap` is undefined: `none`. -/
def Op_BinaryToDecimal (c : Chip) : Option Chip :=
  let value := c.mVariableRegisters (GetX c)
  if c.mIndexRegister + 2 < HEAP_SIZE then
    let h1 := write c.mHeap (c.mIndexRegister + 0) ((value / 100) % 256)
    let h2 := write h1 (c.mIndexRegister + 1) ((value / 10) % 10)
    some { c with mHeap := write h2 (c.mIndexRegister + 2) (value % 10) }
  else none

/-- Loop of `Chip::Op_StoreMemory`: `k` iterations are left, the next one
has loop variable `i`. -/
def Op_StoreMemory.loop : Nat → Nat → Chip → Option Chip
  | 0, _, c => some c
  | k + 1, i, c =>
    if c.mIndexRegister + i < HEAP_SIZE then
      Op_StoreMemory.loop k (i + 1)
        { c with mHeap := write c.mHeap (c.mIndexRegister + i) (c.mVariableRegisters i) }
    else none

def Op_StoreMemory (c : Chip) : Option Chip :=
  let x := GetX c
  (Op_StoreMemory.loop (x + 1) 0 c).map fun c1 =>
    if !c1.mQuirks.mModernLoadStore then
      { c1 with mIndexRegister := (c1.mIndexRegister + (x + 1)) % 65536 }
    else c1

/-- Loop of `Chip::Op_LoadMemory`: `k` iterations are left, the next one
has loop variable `i`. -/
def Op_LoadMemory.loop : Nat → Nat → Chip → Option Chip
  | 0, _, c => some c
  | k + 1, i, c =>
    if c.mIndexRegister + i < HEAP_SIZE then
      Op_LoadMemory.loop k (i + 1)
        { c with mVariableRegisters := write c.mVariableRegisters i (c.mHeap (c.mIndexRegister + i)) }
    else none

def Op_LoadMemory (c : Chip) : Option Chip :=
  let x := GetX c
  (Op_LoadMemory.loop (x + 1) 0 c).map fun c1 =>
    if !c1.mQuirks.mModernLoadStore then
      { c1 with mIndexRegister := (c1.mIndexRegister + (x + 1)) % 65536 }
    else c1

/-- Inner loop of `Chip::Op_Draw` over the pixels of one sprite row: `k`
iterations are left, the next one has loop variable `col`.  The loop is left
at the first column outside the display. -/
def Op_Draw.colLoop (startX currentY spriteByte : Nat) : Nat → Nat → Chip → Chip
  | 0, _, c => c
  | k + 1, col, c =>
    let currentX := (startX + col) % 256
    if currentX ≥ OUTPUT_WIDTH then c
    else
      let pixel := (spriteByte >>> (7 - col)) &&& 0x1
      let spritePixel := toU32 (-(pixel : Int))
      let index := currentY * OUTPUT_WIDTH + currentX
      let displayPixel := c.mDisplayOutput index
      let flag := (c.mVariableRegisters 0xF ||| (((spritePixel &&& displayPixel) >>> 31) % 256)) % 256
      Op_Draw.colLoop startX currentY spriteByte k (col + 1)
        { c with
          mVariableRegisters := write c.mVariableRegisters 0xF flag
          mDisplayOutput := write c.mDisplayOutput index (displayPixel ^^^ spritePixel) }

/-- Outer loop of `Chip::Op_Draw` over the sprite rows: `k` iterations are
left, the next one has loop variable `row`.  The loop is left at the first
row outside the display; reading a sprite byte outside `mHeap` is undefined:
`none`. -/
def Op_Draw.rowLoop (startX startY : Nat) : Nat → Nat → Chip → Option Chip
  | 0, _, c => some c
  | k + 1, row, c =>
    let currentY := (startY + row) % 256
    if currentY ≥ OUTPUT_HEIGHT then some c
    else if c.mIndexRegister + row < HEAP_SIZE then
      let spriteByte := c.mHeap (c.mIndexRegister + row)
      Op_Draw.rowLoop startX startY k (row + 1)
        (Op_Draw.colLoop startX currentY spriteByte 8 0 c)
    else none

def Op_Draw (c : Chip) : Option Chip :=
  let startX := c.mVariableRegisters (GetX c) &&& (OUTPUT_WIDTH - 1)
  let startY := c.mVariableRegisters (GetY c) &&& (OUTPUT_HEIGHT - 1)
  let n := GetN c
  Op_Draw.rowLoop startX startY n 0
    { c with mVariableRegisters := write c.mVariableRegisters 0xF 0 }

/-! ## Dispatch -/

/-- The opcode table built by the constructor, in the order of the source.
A handler receives the random draw of the cycle and the state. -/
def mOpcodeBindings : List (Nat × (Nat → Chip → Option Chip)) :=
  [(0x00E0, fun _ c => some (Op_ClearScreen c)),
   (0x00EE, fun _ c => Op_PopSubroutine c),
   (0x1000, fun _ c => some (Op_Jump c)),
   (0x2000, fun _ c => some (Op_PushSubroutine c)),
   (0x3000, fun _ c => some (Op_SkipIfVxNnEqual c)),
   (0x4000, fun _ c => some (Op_SkipIfVxNnNotEqual c)),
   (0x5000, fun _ c => some (Op_SkipIfVxVyEqual c)),
   (0x6000, fun _ c => some (Op_SetVxToNn c)),
   (0x7000, fun _ c => some (Op_AddNnToVx c)),
   (0x8000, fun _ c => some (Op_SetVxToVy c)),
   (0x8001, fun _ c => some (Op_BinaryOR c)),
   (0x8002, fun _ c => some (Op_BinaryAND c)),
   (0x8003, fun _ c => some (Op_LogicalXOR c)),
   (0x8004, fun _ c => some (Op_AddWithCarry c)),
   (0x8005, fun _ c => some (Op_SubtractVyFromVx c)),
   (0x8006, fun _ c => some (Op_ShiftRight c)),
   (0x8007, fun _ c => some (Op_SubtractVxfromVy c)),
   (0x800E, fun _ c => some (Op_ShiftLeft c)),
   (0x9000, fun _ c => some (Op_SkipIfVxVyNotEqual c)),
   (0xA000, fun _ c => some (Op_SetIndexRegister c)),
   (0xB000, fun _ c => some (Op_JumpWithOffset c)),
   (0xC000, fun rnd c => some (Op_Random rnd c)),
   (0xE09E, fun _ c => Op_SkipIfKeyPressed c),
   (0xE0A1, fun _ c => Op_SkipIfKeyNotPressed c),
   (0xF007, fun _ c => some (Op_CacheDelayTimer c)),
   (0xF015, fun _ c => some (Op_SetDelayTimer c)),
   (0xF018, fun _ c => some (Op_SetSoundTimer c)),
   (0xF01E, fun _ c => some (Op_AddToIndexRegister c)),
   (0xF00A, fun _ c => some (Op_GetKey c)),
   (0xF029, fun _ c => some (Op_SetFontCharacter c)),
   (0xF033, fun _ c => Op_BinaryToDecimal c),
   (0xF055, fun _ c => Op_StoreMemory c),
   (0xF065, fun _ c => Op_LoadMemory c),
   (0xD000, fun _ c => Op_Draw c)]

/-- `Chip::Execute`: run the handler bound to `opcode`, if there is one. -/
def Execute (rnd opcode : Nat) (c : Chip) : Option Chip :=
  match mOpcodeBindings.lookup opcode with
  | some handler => handler rnd c
  | none => some c

/-- `Chip::Process`: one cycle. -/
def Process (rnd : Nat) (c : Chip) : Option Chip :=
  (Fetch c).bind fun c1 => Execute rnd (Decode c1) c1

/-! ## Closed forms of the loops of `Op_Draw`, used in the proofs -/

/-- Closed form of the pixels one run of the column loop toggles. -/
def Op_Draw.colHit (startX currentY spriteByte col k idx : Nat) : Prop :=
  idx / 64 = currentY ∧ startX + col ≤ idx % 64 ∧ idx % 64 < startX + col + k ∧
    spriteByte.testBit (7 - (idx % 64 - startX)) = true

instance Op_Draw.colHit.decidable (startX currentY spriteByte col k idx : Nat) :
    Decidable (Op_Draw.colHit startX currentY spriteByte col k idx) := by
  unfold Op_Draw.colHit; infer_instance

/-- Closed form of the pixels the row loop toggles. -/
def Op_Draw.hit (heap : Nat → Nat) (index startX startY row k idx : Nat) : Prop :=
  startY + row ≤ idx / 64 ∧ idx / 64 < startY + row + k ∧ idx / 64 < 32 ∧
    startX ≤ idx % 64 ∧ idx % 64 < startX + 8 ∧
    (heap (index + (idx / 64 - startY))).testBit (7 - (idx % 64 - startX)) = true

instance Op_Draw.hit.decidable (heap : Nat → Nat) (index startX startY row k idx : Nat) :
    Decidable (Op_Draw.hit heap index startX startY row k idx) := by
  unfold Op_Draw.hit; infer_instance

/-! ## Typing conditions on states -/

/-- Every variable register holds a `uint8_t` value. -/
def RegsU8 (c : Chip) : Prop := ∀ i < 16, c.mVariableRegisters i < 256

/-- Every byte of memory holds a `uint8_t` value. -/
def HeapU8 (c : Chip) : Prop := ∀ a < HEAP_SIZE, c.mHeap a < 256

/-! ## Concrete states used to evaluate the handlers -/

/-- A state with every register, memory byte, pixel and key cleared, the
default quirks and the program counter at `0x200`. -/
def blank : Chip :=
  { mProgramCounter := 0x200, mIndexRegister := 0, mVariableRegisters := fun _ => 0,
    mHeap := fun _ => 0, mStack := [], mDisplayOutput := fun _ => 0,
    mQuirks := QuirkStorage.ResetToDefault, mInstruction := 0, mDelayTimer := 0,
    mSoundTimer := 0, mKeypad := fun _ => false }

/-- The state `blank` with current instruction `instr` and registers `regs`. -/
def withRegs (instr : Nat) (regs : Nat → Nat) : Chip :=
  { blank with mInstruction := instr, mVariableRegisters := regs }

/-- Register file holding `a` in `V0`, `b` in `V1` and zero elsewhere. -/
def regs2 (a b : Nat) : Nat → Nat :=
  write (write (fun _ => 0) 0 a) 1 b

/-- The state `c` with the ModernShift quirk set to `b`. -/
def withModernShift (b : Bool) (c : Chip) : Chip :=
  { c with mQuirks := { c.mQuirks with mModernShift := b } }

/-- The state `blank` about to execute `0xD011` (draw one row at `(V0, V1)`)
with the sprite byte `0x80` at `mIndexRegister = 0x300` and display contents
`display`. -/
def drawState (display : Nat → Nat) : Chip :=
  { blank with
    mInstruction := 0xD011
    mIndexRegister := 0x300
    mHeap := write (fun _ => 0) 0x300 0x80
    mDisplayOutput := display }

/-- The state `drawState` with every pixel off. -/
def drawOff : Chip := drawState (fun _ => 0)

/-- The state `drawState` with every pixel on. -/
def drawLit : Chip := drawState (fun _ => 0xFFFFFFFF)

/-- The state `blank` with the word `0xF30A` (wait for a key, X = 3) at the
program counter `0x200` and keypad `keys`. -/
def keyWait (keys : Nat → Bool) : Chip :=
  { blank with
    mHeap := write (write (fun _ => 0) 0x200 0xF3) 0x201 0x0A
    mKeypad := keys }

/-- The state `blank` with the word `0x5121` (family 5 with last nibble 1, bound
to no handler) at the program counter `0x200`. -/
def unboundWord : Chip :=
  { blank with mHeap := write (write (fun _ => 0) 0x200 0x51) 0x201 0x21 }

/-- The state `blank` with delay timer `d` and sound timer `s`. -/
def timers (d s : Nat) : Chip :=
  { blank with mDelayTimer := d, mSoundTimer := s }

/-- The state `blank` with current instruction `instr`, the ModernLoadStore
quirk set to `modern`, `V0 = 234`, `V1 = 9`, `mIndexRegister = 0x300` and the
bytes `0x12`, `0x34` at `0x300`, `0x301`. -/
def memState (instr : Nat) (modern : Bool) : Chip :=
  { blank with
    mInstruction := instr
    mIndexRegister := 0x300
    mVariableRegisters := regs2 234 9
    mHeap := write (write (fun _ => 0) 0x300 0x12) 0x301 0x34
    mQuirks := { blank.mQuirks with mModernLoadStore := modern } }

/-- The state built by the constructor over zeroed memory and display, with
current instruction `instr`, `V0 = v0` and every other register zero. -/
def fontState (instr v0 : Nat) : Chip :=
  { Chip.construct (fun _ => 0) (fun _ => 0) with
    mInstruction := instr
    mVariableRegisters := regs2 v0 0 }

/-- The state `blank` with current instruction `instr`, the SuperChipJump
quirk set to `superChip`, `V0 = 0x10` and `V1 = 0x20`. -/
def jumpState (instr : Nat) (superChip : Bool) : Chip :=
  { blank with
    mInstruction := instr
    mVariableRegisters := regs2 0x10 0x20
    mQuirks := { blank.mQuirks with mSuperChipJump := superChip } }

/-- The state `blank` with current instruction `instr` and call stack `stack`. -/
def callState (instr : Nat) (stack : List Nat) : Chip :=
  { blank with mInstruction := instr, mStack := stack }

/-- Every pixel of the 64 * 32 display is fully off (0) or fully on
(0xFFFFFFFF). -/
def DisplayOnOff (c : Chip) : Prop :=
  ∀ idx < OUTPUT_WIDTH * OUTPUT_HEIGHT,
    c.mDisplayOutput idx = 0 ∨ c.mDisplayOutput idx = 0xFFFFFFFF

/-- The state `blank` with the word `0xD011` (draw one row at `(V0, V1)`) at
the program counter `0x200`, the sprite byte `0x80` at `mIndexRegister =
0x300` and every pixel on. -/
def drawCycle : Chip :=
  { blank with
    mIndexRegister := 0x300
    mHeap := write (write (write (fun _ => 0) 0x200 0xD0) 0x201 0x11) 0x300 0x80
    mDisplayOutput := fun _ => 0xFFFFFFFF }

/-- Display-buffer indices `currentY * OUTPUT_WIDTH + currentX` that the inner
loop of `Chip::Op_Draw` reads and writes, in order: `k` iterations are left,
the next one has loop variable `col`; the loop is left at the first column
outside the display. -/
def Op_Draw.colTrace (startX currentY : Nat) : Nat → Nat → List Nat
  | 0, _ => []
  | k + 1, col =>
    let currentX := (startX + col) % 256
    if currentX ≥ OUTPUT_WIDTH then []
    else
      (currentY * OUTPUT_WIDTH + currentX) :: Op_Draw.colTrace startX currentY k (col + 1)

/-- Display-buffer indices that the outer loop of `Chip::Op_Draw` reads and
writes, in order, for index register `index`: `k` iterations are left, the
next one has loop variable `row`; the loop is left at the first row outside
the display, and nothing more is accessed once a sprite byte lies outside
`mHeap`. -/
def Op_Draw.rowTrace (index startX startY : Nat) : Nat → Nat → List Nat
  | 0, _ => []
  | k + 1, row =>
    let currentY := (startY + row) % 256
    if currentY ≥ OUTPUT_HEIGHT then []
    else if index + row < HEAP_SIZE then
      Op_Draw.colTrace startX currentY 8 0 ++ Op_Draw.rowTrace index startX startY k (row + 1)
    else []

/-- Display-buffer indices that `Chip::Op_Draw` reads and writes, in order. -/
def Op_Draw.trace (c : Chip) : List Nat :=
  Op_Draw.rowTrace c.mIndexRegister
    (c.mVariableRegisters (GetX c) &&& (OUTPUT_WIDTH - 1))
    (c.mVariableRegisters (GetY c) &&& (OUTPUT_HEIGHT - 1)) (GetN c) 0

/-- `Chip::LoadROM`, with the contents `rom` of the file and the quirks that
`mQuirks.LoadConfig` reads as parameters: at most
`sizeof(mHeap) - mProgramCounter` bytes are copied to `mHeap` from
`mProgramCounter` on; the assertion that some byte was read fails on `none`. -/
def LoadROM (rom : List Nat) (quirks : QuirkStorage) (c : Chip) : Option Chip :=
  let count := min rom.length (HEAP_SIZE - c.mProgramCounter)
  if count = 0 then none
  else
    some { c with
      mQuirks := quirks
      mHeap := fun a =>
        if c.mProgramCounter ≤ a ∧ a < c.mProgramCounter + count
        then rom.getD (a - c.mProgramCounter) 0 else c.mHeap a }

/-- The constructed machine (memory and display zero before construction)
after loading the four-byte program `A050 F033`: set the index register to
0x50, then store the decimal digits of V0 there. -/
def romFont : Option Chip :=
  LoadROM [0xA0, 0x50, 0xF0, 0x33] QuirkStorage.ResetToDefault
    (Chip.construct (fun _ => 0) (fun _ => 0))

/-- Outcome of `Chip::Op_Draw` run with every array index checked against the
size of its array: the final state with the display indices accessed, in
order, or the first index that left `mHeap`, or the first index that left
`mDisplayOutput`. -/
inductive DrawResult where
  | ok (c : Chip) (indices : List Nat)
  | heapFault
  | displayFault

/-- Inner loop of `Chip::Op_Draw` with the display access checked: the body of
`Op_Draw.colLoop`, in which `mDisplayOutput[currentY * OUTPUT_WIDTH +
currentX]` is read and written only when the index is below the size
`OUTPUT_WIDTH * OUTPUT_HEIGHT` of the array, and is a `displayFault`
otherwise; `log` holds the indices accessed so far. -/
def Op_Draw.colLoopChecked (startX currentY spriteByte : Nat) :
    Nat → Nat → Chip → List Nat → DrawResult
  | 0, _, c, log => DrawResult.ok c log
  | k + 1, col, c, log =>
    let currentX := (startX + col) % 256
    if currentX ≥ OUTPUT_WIDTH then DrawResult.ok c log
    else
      let pixel := (spriteByte >>> (7 - col)) &&& 0x1
      let spritePixel := toU32 (-(pixel : Int))
      let index := currentY * OUTPUT_WIDTH + currentX
      if index < OUTPUT_WIDTH * OUTPUT_HEIGHT then
        let displayPixel := c.mDisplayOutput index
        let flag :=
          (c.mVariableRegisters 0xF ||| (((spritePixel &&& displayPixel) >>> 31) % 256)) % 256
        Op_Draw.colLoopChecked startX currentY spriteByte k (col + 1)
          { c with
            mVariableRegisters := write c.mVariableRegisters 0xF flag
            mDisplayOutput := write c.mDisplayOutput index (displayPixel ^^^ spritePixel) }
          (log ++ [index])
      else DrawResult.displayFault

/-- Outer loop of `Chip::Op_Draw` with both array accesses checked: the body
of `Op_Draw.rowLoop`, where a sprite byte outside `mHeap` is a `heapFault`
and the inner loop is `Op_Draw.colLoopChecked`. -/
def Op_Draw.rowLoopChecked (startX startY : Nat) : Nat → Nat → Chip → List Nat → DrawResult
  | 0, _, c, log => DrawResult.ok c log
  | k + 1, row, c, log =>
    let currentY := (startY + row) % 256
    if currentY ≥ OUTPUT_HEIGHT then DrawResult.ok c log
    else if c.mIndexRegister + row < HEAP_SIZE then
      let spriteByte := c.mHeap (c.mIndexRegister + row)
      match Op_Draw.colLoopChecked startX currentY spriteByte 8 0 c log with
      | DrawResult.ok c2 log2 => Op_Draw.rowLoopChecked startX startY k (row + 1) c2 log2
      | DrawResult.heapFault => DrawResult.heapFault
      | DrawResult.displayFault => DrawResult.displayFault
    else DrawResult.heapFault

/-- `Chip::Op_Draw` with both array accesses checked. -/
def Op_Draw.checked (c : Chip) : DrawResult :=
  let startX := c.mVariableRegisters (GetX c) &&& (OUTPUT_WIDTH - 1)
  let startY := c.mVariableRegisters (GetY c) &&& (OUTPUT_HEIGHT - 1)
  let n := GetN c
  Op_Draw.rowLoopChecked startX startY n 0
    { c with mVariableRegisters := write c.mVariableRegisters 0xF 0 } []

/-- The constructed machine whose storage held zero bytes for `mHeap` and the
value 5 in every word of `mDisplayOutput` before construction. -/
def staleDisplay : Chip := Chip.construct (fun _ => 0) (fun _ => 5)

/-! # Theorems -/

/-! ## Bit masks and operand fields -/

theorem and_split (k a b c d : Nat) (hb : b < 2 ^ k) (hd : d < 2 ^ k) :
    (2 ^ k * a + b) &&& (2 ^ k * c + d) = 2 ^ k * (a &&& c) + (b &&& d) := by
  have hbd : b &&& d < 2 ^ k := Nat.and_lt_two_pow b hd
  apply Nat.eq_of_testBit_eq
  intro j
  rw [Nat.testBit_and, Nat.testBit_mul_pow_two_add a hb, Nat.testBit_mul_pow_two_add c hd,
    Nat.testBit_mul_pow_two_add (a &&& c) hbd]
  by_cases hj : j < k <;> simp [hj]

theorem top_nibble (T low : Nat) (hlow : low < 4096) : (4096 * T + low) >>> 12 = T := by
  rw [Nat.shiftRight_eq_div_pow]; omega

theorem mask_F000 (T low : Nat) (hlow : low < 4096) :
    (4096 * T + low) &&& 0xF000 = 4096 * (T % 16) := by
  have h := and_split 12 T low 15 0 (by simpa using hlow) (by norm_num)
  have h15 : T &&& 15 = T % 16 := Nat.and_pow_two_sub_one_eq_mod T 4
  simp only [Nat.and_zero, Nat.reducePow, Nat.reduceMul, Nat.add_zero] at h
  rw [h15] at h
  exact h

theorem mask_F00F (T low : Nat) (hlow : low < 4096) :
    (4096 * T + low) &&& 0xF00F = 4096 * (T % 16) + low % 16 := by
  have h := and_split 12 T low 15 15 (by simpa using hlow) (by norm_num)
  have h15 : T &&& 15 = T % 16 := Nat.and_pow_two_sub_one_eq_mod T 4
  have l15 : low &&& 15 = low % 16 := Nat.and_pow_two_sub_one_eq_mod low 4
  simp only [Nat.reducePow, Nat.reduceMul, Nat.reduceAdd] at h
  rw [h15, l15] at h
  exact h

theorem mask_F0FF (T low : Nat) (hlow : low < 4096) :
    (4096 * T + low) &&& 0xF0FF = 4096 * (T % 16) + low % 256 := by
  have h := and_split 12 T low 15 255 (by simpa using hlow) (by norm_num)
  have h15 : T &&& 15 = T % 16 := Nat.and_pow_two_sub_one_eq_mod T 4
  have l15 : low &&& 255 = low % 256 := Nat.and_pow_two_sub_one_eq_mod low 8
  simp only [Nat.reducePow, Nat.reduceMul, Nat.reduceAdd] at h
  rw [h15, l15] at h
  exact h

theorem GetX_eq (c : Chip) : GetX c = c.mInstruction / 256 % 16 := by
  unfold GetX
  rw [Nat.shiftRight_eq_div_pow]
  exact Nat.and_pow_two_sub_one_eq_mod _ 4

theorem GetY_eq (c : Chip) : GetY c = c.mInstruction / 16 % 16 := by
  unfold GetY
  rw [Nat.shiftRight_eq_div_pow]
  exact Nat.and_pow_two_sub_one_eq_mod _ 4

theorem GetN_eq (c : Chip) : GetN c = c.mInstruction % 16 := by
  unfold GetN
  exact Nat.and_pow_two_sub_one_eq_mod _ 4

theorem Decode_family8 (c : Chip) (X Y N : Nat) (hX : X < 16) (hY : Y < 16) (hN : N < 16)
    (hI : c.mInstruction = 0x8000 + 0x100 * X + 0x10 * Y + N) : Decode c = 0x8000 + N := by
  have hw : c.mInstruction = 4096 * 8 + (0x100 * X + 0x10 * Y + N) := by omega
  unfold Decode
  rw [hw, top_nibble _ _ (by omega)]
  have := mask_F00F 8 (0x100 * X + 0x10 * Y + N) (by omega)
  simp only [mOpcodeMasks, List.getD_cons_succ, List.getD_cons_zero]
  omega

/-! ## Dispatch of the arithmetic family -/

theorem Execute_8XY4 (rnd : Nat) (c : Chip) (X Y : Nat) (hX : X < 16) (hY : Y < 16)
    (hI : c.mInstruction = 0x8004 + 0x100 * X + 0x10 * Y) :
    Execute rnd (Decode c) c = some (Op_AddWithCarry c) := by
  rw [Decode_family8 c X Y 4 hX hY (by norm_num) (by omega)]
  rfl

theorem Execute_8XY7 (rnd : Nat) (c : Chip) (X Y : Nat) (hX : X < 16) (hY : Y < 16)
    (hI : c.mInstruction = 0x8007 + 0x100 * X + 0x10 * Y) :
    Execute rnd (Decode c) c = some (Op_SubtractVxfromVy c) := by
  rw [Decode_family8 c X Y 7 hX hY (by norm_num) (by omega)]
  rfl

theorem regsU8_withRegs2 (instr a b : Nat) (ha : a < 256) (hb : b < 256) :
    RegsU8 (withRegs instr (regs2 a b)) := by
  intro i _
  simp only [withRegs, regs2, write]
  split_ifs <;> omega

/-! ## Arithmetic and shift instructions -/

/-- C1 (8XY5), evaluated on the two operand pairs of the specification.
`Op_SubtractVyFromVx` compares after the difference has been stored: with
Vx=0x05, Vy=0x03 it leaves Vx=0x02 and VF=0, and with Vx=0x03, Vy=0x05 it
leaves Vx=0xFE and VF=1, the opposite of the flag computed from the values
before the subtraction. -/
theorem C1_subtract_vy_from_vx_flag_after_store :
    (Execute 0 (Decode (withRegs 0x8015 (regs2 5 3))) (withRegs 0x8015 (regs2 5 3))).map
        (fun c => (c.mVariableRegisters 0, c.mVariableRegisters 0xF)) = some (0x02, 0) ∧
    (Execute 0 (Decode (withRegs 0x8015 (regs2 3 5))) (withRegs 0x8015 (regs2 3 5))).map
        (fun c => (c.mVariableRegisters 0, c.mVariableRegisters 0xF)) = some (0xFE, 1) := by
  decide

/-- C2 (8XY7): for X other than 0xF, executing 8XY7 leaves Vx equal to
(Vy - Vx) mod 256 and VF equal to 1 if Vy >= Vx held before the instruction
and 0 otherwise; no other register and no other part of the state changes. -/
theorem C2_subtract_vx_from_vy (rnd : Nat) (c : Chip) (X Y : Nat) (hX : X < 16) (hY : Y < 16)
    (hXF : X ≠ 0xF) (hI : c.mInstruction = 0x8007 + 0x100 * X + 0x10 * Y)
    (hregs : RegsU8 c) :
    ∃ c1, Execute rnd (Decode c) c = some c1 ∧
      (c1.mVariableRegisters X : Int)
        = ((c.mVariableRegisters Y : Int) - (c.mVariableRegisters X : Int)) % 256 ∧
      c1.mVariableRegisters 0xF
        = (if c.mVariableRegisters Y ≥ c.mVariableRegisters X then 1 else 0) ∧
      (∀ i, i ≠ X → i ≠ 0xF → c1.mVariableRegisters i = c.mVariableRegisters i) ∧
      c1 = { c with mVariableRegisters := c1.mVariableRegisters } := by
  have hx : GetX c = X := by rw [GetX_eq, hI]; omega
  have hy : GetY c = Y := by rw [GetY_eq, hI]; omega
  have hvx := hregs X hX
  have hvy := hregs Y hY
  refine ⟨_, Execute_8XY7 rnd c X Y hX hY hI, ?_, ?_, ?_, rfl⟩
  · simp only [Op_SubtractVxfromVy, hx, hy, write, toU8]
    simp only [if_neg hXF, if_true]
    omega
  · simp only [Op_SubtractVxfromVy, hx, hy, write, toU8, boolToNat, if_true]
    by_cases hYX : Y = X
    · subst hYX
      simp
    · simp only [if_neg hYX, decide_eq_true_eq]
      by_cases hle : c.mVariableRegisters X ≤ c.mVariableRegisters Y
      · rw [if_pos (by omega), if_pos (by omega)]
      · rw [if_neg (by omega), if_neg (by omega)]
  · intro i hiX hiF
    simp only [Op_SubtractVxfromVy, hx, hy, write, if_neg hiX, if_neg hiF]

/-- C2 at instruction 0x8017 with V0 = 5 and V1 = 3, where the subtraction
borrows. -/
theorem C2_subtract_vx_from_vy_witness :
    ((0 : Nat) < 16 ∧ (1 : Nat) < 16 ∧ (0 : Nat) ≠ 0xF ∧
      (withRegs 0x8017 (regs2 5 3)).mInstruction = 0x8007 + 0x100 * 0 + 0x10 * 1 ∧
      RegsU8 (withRegs 0x8017 (regs2 5 3))) ∧
    ∃ c1, Execute 7 (Decode (withRegs 0x8017 (regs2 5 3))) (withRegs 0x8017 (regs2 5 3)) = some c1 ∧
      (c1.mVariableRegisters 0 : Int)
        = (((withRegs 0x8017 (regs2 5 3)).mVariableRegisters 1 : Int)
            - ((withRegs 0x8017 (regs2 5 3)).mVariableRegisters 0 : Int)) % 256 ∧
      c1.mVariableRegisters 0xF
        = (if (withRegs 0x8017 (regs2 5 3)).mVariableRegisters 1
              ≥ (withRegs 0x8017 (regs2 5 3)).mVariableRegisters 0 then 1 else 0) ∧
      (∀ i, i ≠ 0 → i ≠ 0xF →
        c1.mVariableRegisters i = (withRegs 0x8017 (regs2 5 3)).mVariableRegisters i) ∧
      c1 = { withRegs 0x8017 (regs2 5 3) with mVariableRegisters := c1.mVariableRegisters } :=
  ⟨⟨by decide, by decide, by decide, rfl, regsU8_withRegs2 _ 5 3 (by decide) (by decide)⟩,
   C2_subtract_vx_from_vy 7 (withRegs 0x8017 (regs2 5 3)) 0 1 (by decide) (by decide) (by decide)
     rfl (regsU8_withRegs2 _ 5 3 (by decide) (by decide))⟩

/-- C3 (8XY4): for every X and Y, executing 8XY4 leaves VF equal to 1 if the
sum of the values of Vx and Vy before the instruction exceeds 255 and to 0
otherwise; for X other than 0xF it leaves Vx equal to (Vx + Vy) mod 256; no
register other than Vx and VF and no other part of the state changes. -/
theorem C3_add_with_carry (rnd : Nat) (c : Chip) (X Y : Nat) (hX : X < 16) (hY : Y < 16)
    (hI : c.mInstruction = 0x8004 + 0x100 * X + 0x10 * Y) (hregs : RegsU8 c) :
    ∃ c1, Execute rnd (Decode c) c = some c1 ∧
      c1.mVariableRegisters 0xF
        = (if c.mVariableRegisters X + c.mVariableRegisters Y > 255 then 1 else 0) ∧
      (X ≠ 0xF →
        c1.mVariableRegisters X = (c.mVariableRegisters X + c.mVariableRegisters Y) % 256) ∧
      (∀ i, i ≠ X → i ≠ 0xF → c1.mVariableRegisters i = c.mVariableRegisters i) ∧
      c1 = { c with mVariableRegisters := c1.mVariableRegisters } := by
  have hx : GetX c = X := by rw [GetX_eq, hI]; omega
  have hy : GetY c = Y := by rw [GetY_eq, hI]; omega
  have hvx := hregs X hX
  have hvy := hregs Y hY
  refine ⟨_, Execute_8XY4 rnd c X Y hX hY hI, ?_, ?_, ?_, rfl⟩
  · simp only [Op_AddWithCarry, hx, hy, write, if_true, Nat.shiftRight_eq_div_pow]
    split_ifs <;> omega
  · intro hXF
    simp only [Op_AddWithCarry, hx, hy, write, if_neg hXF, if_true]
    omega
  · intro i hiX hiF
    simp only [Op_AddWithCarry, hx, hy, write, if_neg hiX, if_neg hiF]

/-- C3 at instruction 0x8014 with V0 = 0xFF and V1 = 0x01 (the sum carries). -/
theorem C3_add_with_carry_witness :
    ((0 : Nat) < 16 ∧ (1 : Nat) < 16 ∧
      (withRegs 0x8014 (regs2 0xFF 0x01)).mInstruction = 0x8004 + 0x100 * 0 + 0x10 * 1 ∧
      RegsU8 (withRegs 0x8014 (regs2 0xFF 0x01))) ∧
    ∃ c1, Execute 7 (Decode (withRegs 0x8014 (regs2 0xFF 0x01)))
        (withRegs 0x8014 (regs2 0xFF 0x01)) = some c1 ∧
      c1.mVariableRegisters 0xF
        = (if (withRegs 0x8014 (regs2 0xFF 0x01)).mVariableRegisters 0
              + (withRegs 0x8014 (regs2 0xFF 0x01)).mVariableRegisters 1 > 255 then 1 else 0) ∧
      ((0 : Nat) ≠ 0xF →
        c1.mVariableRegisters 0
          = ((withRegs 0x8014 (regs2 0xFF 0x01)).mVariableRegisters 0
              + (withRegs 0x8014 (regs2 0xFF 0x01)).mVariableRegisters 1) % 256) ∧
      (∀ i, i ≠ 0 → i ≠ 0xF →
        c1.mVariableRegisters i = (withRegs 0x8014 (regs2 0xFF 0x01)).mVariableRegisters i) ∧
      c1 = { withRegs 0x8014 (regs2 0xFF 0x01) with mVariableRegisters := c1.mVariableRegisters } :=
  ⟨⟨by decide, by decide, rfl, regsU8_withRegs2 _ 0xFF 0x01 (by decide) (by decide)⟩,
   C3_add_with_carry 7 (withRegs 0x8014 (regs2 0xFF 0x01)) 0 1 (by decide) (by decide)
     rfl (regsU8_withRegs2 _ 0xFF 0x01 (by decide) (by decide))⟩

/-- C4 (8XY6) evaluated with X = 0xF.  `Op_ShiftRight` stores VF first and
Vx second, so the store to Vx = VF replaces the flag by the shifted value:
for the source value 2 (low bit 0) the instruction leaves VF = 1, both with
ModernShift off (0x8F16, V1 = 2) and with ModernShift on (0x8F06, VF = 2). -/
theorem C4_shift_right_flag_lost_when_x_is_f :
    (Execute 0 (Decode (withRegs 0x8F16 (regs2 0 2))) (withRegs 0x8F16 (regs2 0 2))).map
        (fun c => c.mVariableRegisters 0xF) = some 1 ∧
    (Execute 0 (Decode (withModernShift true (withRegs 0x8F06 (write (fun _ => 0) 0xF 2))))
        (withModernShift true (withRegs 0x8F06 (write (fun _ => 0) 0xF 2)))).map
        (fun c => c.mVariableRegisters 0xF) = some 1 ∧
    (2 : Nat) &&& 0x01 = 0 := by
  decide

/-- C5 (8XYE) evaluated with X = 0xF.  `Op_ShiftLeft` stores VF first and Vx
second, so the store to Vx = VF replaces the flag by the shifted value: for
the source value 1 (bit 7 clear) the instruction leaves VF = 2, both with
ModernShift off (0x8F1E, V1 = 1) and with ModernShift on (0x8F0E, VF = 1). -/
theorem C5_shift_left_flag_lost_when_x_is_f :
    (Execute 0 (Decode (withRegs 0x8F1E (regs2 0 1))) (withRegs 0x8F1E (regs2 0 1))).map
        (fun c => c.mVariableRegisters 0xF) = some 2 ∧
    (Execute 0 (Decode (withModernShift true (withRegs 0x8F0E (write (fun _ => 0) 0xF 1))))
        (withModernShift true (withRegs 0x8F0E (write (fun _ => 0) 0xF 1)))).map
        (fun c => c.mVariableRegisters 0xF) = some 2 ∧
    ((1 : Nat) >>> 7) &&& 0x01 = 0 := by
  decide

/-! ## The loops of `Op_Draw` -/

theorem spritePixel_eq (b s : Nat) :
    toU32 (-(((b >>> s) &&& 0x1 : Nat) : Int)) = if b.testBit s then 0xFFFFFFFF else 0 := by
  rw [Nat.testBit_to_div_mod, Nat.and_one_is_mod, Nat.shiftRight_eq_div_pow]
  unfold toU32
  rcases Nat.mod_two_eq_zero_or_one (b / 2 ^ s) with h | h <;> simp [h]

theorem colLoop_frame (startX currentY spriteByte : Nat) (k : Nat) :
    ∀ (col : Nat) (c : Chip),
      Op_Draw.colLoop startX currentY spriteByte k col c =
        { c with
          mVariableRegisters :=
            (Op_Draw.colLoop startX currentY spriteByte k col c).mVariableRegisters
          mDisplayOutput :=
            (Op_Draw.colLoop startX currentY spriteByte k col c).mDisplayOutput } := by
  induction k with
  | zero => intro col c; rfl
  | succ k ih =>
    intro col c
    simp only [Op_Draw.colLoop]
    split_ifs with h
    · rfl
    · rw [ih]

theorem colLoop_regs (startX currentY spriteByte : Nat) (k : Nat) :
    ∀ (col : Nat) (c : Chip) (i : Nat), i ≠ 0xF →
      (Op_Draw.colLoop startX currentY spriteByte k col c).mVariableRegisters i =
        c.mVariableRegisters i := by
  induction k with
  | zero => intro col c i _; rfl
  | succ k ih =>
    intro col c i hi
    simp only [Op_Draw.colLoop]
    split_ifs with h
    · rfl
    · rw [ih _ _ i hi]
      simp only [write, if_neg hi]

theorem colLoop_display (startX currentY spriteByte : Nat) (hsx : startX ≤ 63) (k : Nat) :
    ∀ (col : Nat) (c : Chip) (idx : Nat), col + k ≤ 8 →
      (Op_Draw.colLoop startX currentY spriteByte k col c).mDisplayOutput idx =
        if Op_Draw.colHit startX currentY spriteByte col k idx
        then c.mDisplayOutput idx ^^^ 0xFFFFFFFF else c.mDisplayOutput idx := by
  induction k with
  | zero =>
    intro col c idx _
    have : ¬ Op_Draw.colHit startX currentY spriteByte col 0 idx := by
      unfold Op_Draw.colHit; omega
    rw [if_neg this]; rfl
  | succ k ih =>
    intro col c idx hk
    simp only [Op_Draw.colLoop, OUTPUT_WIDTH]
    have hmod : (startX + col) % 256 = startX + col := by omega
    rw [hmod]
    by_cases hbreak : startX + col ≥ 64
    · rw [if_pos hbreak]
      have : ¬ Op_Draw.colHit startX currentY spriteByte col (k + 1) idx := by
        unfold Op_Draw.colHit; omega
      rw [if_neg this]
    · rw [if_neg hbreak, ih _ _ idx (by omega)]
      simp only [write, spritePixel_eq]
      by_cases hidx : idx = currentY * 64 + (startX + col)
      · have h7 : 7 - (idx % 64 - startX) = 7 - col := by omega
        have hno : ¬ Op_Draw.colHit startX currentY spriteByte (col + 1) k idx := by
          unfold Op_Draw.colHit; omega
        rw [if_neg hno, if_pos hidx]
        by_cases hbit : spriteByte.testBit (7 - col) = true
        · have hyes : Op_Draw.colHit startX currentY spriteByte col (k + 1) idx := by
            unfold Op_Draw.colHit; rw [h7]; exact ⟨by omega, by omega, by omega, hbit⟩
          rw [if_pos hyes, if_pos hbit, hidx]
        · have hno2 : ¬ Op_Draw.colHit startX currentY spriteByte col (k + 1) idx := by
            unfold Op_Draw.colHit; rw [h7]; tauto
          rw [if_neg hno2, if_neg hbit, hidx]; simp
      · rw [if_neg hidx]
        have hiff : Op_Draw.colHit startX currentY spriteByte (col + 1) k idx ↔
            Op_Draw.colHit startX currentY spriteByte col (k + 1) idx := by
          unfold Op_Draw.colHit
          constructor
          · rintro ⟨h1, h2, h3, h4⟩; exact ⟨h1, by omega, by omega, h4⟩
          · rintro ⟨h1, h2, h3, h4⟩; exact ⟨h1, by omega, by omega, h4⟩
        simp only [hiff]

theorem colHit_succ (startX currentY spriteByte col k idx : Nat) (hx : startX + col < 64) :
    Op_Draw.colHit startX currentY spriteByte col (k + 1) idx ↔
      (idx = currentY * 64 + (startX + col) ∧ spriteByte.testBit (7 - col) = true) ∨
        Op_Draw.colHit startX currentY spriteByte (col + 1) k idx := by
  unfold Op_Draw.colHit
  constructor
  · rintro ⟨h1, h2, h3, h4⟩
    by_cases h : idx % 64 = startX + col
    · left
      have h7 : 7 - (idx % 64 - startX) = 7 - col := by omega
      rw [h7] at h4
      exact ⟨by omega, h4⟩
    · right
      exact ⟨h1, by omega, by omega, h4⟩
  · rintro (⟨h1, h2⟩ | ⟨h1, h2, h3, h4⟩)
    · have h7 : 7 - (idx % 64 - startX) = 7 - col := by omega
      rw [h7]
      exact ⟨by omega, by omega, by omega, h2⟩
    · exact ⟨h1, by omega, by omega, h4⟩

theorem flag_eq (vf dp : Nat) (bit : Bool) (hvf : vf ≤ 1) (hdp : dp = 0 ∨ dp = 0xFFFFFFFF) :
    (vf ||| ((((if bit then 0xFFFFFFFF else 0) &&& dp) >>> 31) % 256)) % 256 =
      if vf = 1 ∨ (bit = true ∧ dp = 0xFFFFFFFF) then 1 else 0 := by
  have hv : vf = 0 ∨ vf = 1 := by omega
  rcases hv with rfl | rfl <;> rcases hdp with rfl | rfl <;> cases bit <;> decide

theorem colLoop_flag (startX currentY spriteByte : Nat) (hsx : startX ≤ 63)
    (hy : currentY < 32) (k : Nat) :
    ∀ (col : Nat) (c : Chip), col + k ≤ 8 →
      (∀ idx < 2048, c.mDisplayOutput idx = 0 ∨ c.mDisplayOutput idx = 0xFFFFFFFF) →
      c.mVariableRegisters 0xF ≤ 1 →
      (Op_Draw.colLoop startX currentY spriteByte k col c).mVariableRegisters 0xF ≤ 1 ∧
      ((Op_Draw.colLoop startX currentY spriteByte k col c).mVariableRegisters 0xF = 1 ↔
        c.mVariableRegisters 0xF = 1 ∨
          ∃ idx, Op_Draw.colHit startX currentY spriteByte col k idx ∧
            c.mDisplayOutput idx = 0xFFFFFFFF) := by
  induction k with
  | zero =>
    intro col c _ _ hvf
    refine ⟨hvf, ?_⟩
    simp only [Op_Draw.colLoop]
    constructor
    · intro h; exact Or.inl h
    · rintro (h | ⟨idx, h, _⟩)
      · exact h
      · unfold Op_Draw.colHit at h; omega
  | succ k ih =>
    intro col c hk hbin hvf
    simp only [Op_Draw.colLoop, OUTPUT_WIDTH]
    have hmod : (startX + col) % 256 = startX + col := by omega
    rw [hmod]
    by_cases hbreak : startX + col ≥ 64
    · rw [if_pos hbreak]
      refine ⟨hvf, ?_⟩
      constructor
      · intro h; exact Or.inl h
      · rintro (h | ⟨idx, h, _⟩)
        · exact h
        · unfold Op_Draw.colHit at h; omega
    · rw [if_neg hbreak]
      have hi0 : currentY * 64 + (startX + col) < 2048 := by omega
      have hdp := hbin _ hi0
      have hflag := flag_eq (c.mVariableRegisters 0xF) (c.mDisplayOutput (currentY * 64 + (startX + col)))
        (spriteByte.testBit (7 - col)) hvf hdp
      have hih := ih (col + 1)
        { c with
          mVariableRegisters := write c.mVariableRegisters 0xF
            ((c.mVariableRegisters 0xF |||
              (((toU32 (-(((spriteByte >>> (7 - col)) &&& 0x1 : Nat) : Int)) &&&
                c.mDisplayOutput (currentY * 64 + (startX + col))) >>> 31) % 256)) % 256)
          mDisplayOutput := write c.mDisplayOutput (currentY * 64 + (startX + col))
            (c.mDisplayOutput (currentY * 64 + (startX + col)) ^^^
              toU32 (-(((spriteByte >>> (7 - col)) &&& 0x1 : Nat) : Int))) }
        (by omega)
        (by
          intro idx hidx
          simp only [write, spritePixel_eq]
          split_ifs with h1 h2
          · rcases hdp with h | h <;> rw [h] <;> decide
          · rcases hdp with h | h <;> rw [h] <;> decide
          · exact hbin idx hidx)
        (by
          simp only [write, if_true, spritePixel_eq]
          rw [hflag]; split_ifs <;> omega)
      refine ⟨hih.1, ?_⟩
      rw [hih.2]
      simp only [write, if_true, spritePixel_eq]
      rw [hflag]
      constructor
      · rintro (h | ⟨idx, hhit, hd⟩)
        · split_ifs at h with h1
          · rcases h1 with h1 | ⟨h1, h2⟩
            · exact Or.inl h1
            · exact Or.inr ⟨_, (colHit_succ _ _ _ _ _ _ (by omega)).2 (Or.inl ⟨rfl, h1⟩), h2⟩
        · have hne : idx ≠ currentY * 64 + (startX + col) := by
            unfold Op_Draw.colHit at hhit; omega
          rw [if_neg hne] at hd
          exact Or.inr ⟨idx, (colHit_succ _ _ _ _ _ _ (by omega)).2 (Or.inr hhit), hd⟩
      · rintro (h | ⟨idx, hhit, hd⟩)
        · left; rw [if_pos (Or.inl h)]
        · rcases (colHit_succ _ _ _ _ _ _ (by omega)).1 hhit with ⟨h1, h2⟩ | h1
          · left; rw [h1] at hd; rw [if_pos (Or.inr ⟨h2, hd⟩)]
          · right
            have hne : idx ≠ currentY * 64 + (startX + col) := by
              unfold Op_Draw.colHit at h1; omega
            exact ⟨idx, h1, by rw [if_neg hne]; exact hd⟩

theorem hit_zero (heap : Nat → Nat) (index startX startY row idx : Nat) :
    ¬ Op_Draw.hit heap index startX startY row 0 idx := by
  unfold Op_Draw.hit; omega

theorem hit_clipped (heap : Nat → Nat) (index startX startY row k idx : Nat)
    (h : startY + row ≥ 32) : ¬ Op_Draw.hit heap index startX startY row k idx := by
  unfold Op_Draw.hit; omega

theorem hit_succ (heap : Nat → Nat) (index startX startY row k idx : Nat) :
    Op_Draw.hit heap index startX startY row (k + 1) idx ↔
      (idx / 64 < 32 ∧ Op_Draw.colHit startX (startY + row) (heap (index + row)) 0 8 idx) ∨
        Op_Draw.hit heap index startX startY (row + 1) k idx := by
  unfold Op_Draw.hit Op_Draw.colHit
  constructor
  · rintro ⟨h1, h2, h3, h4, h5, h6⟩
    by_cases h : idx / 64 = startY + row
    · left
      have hr : idx / 64 - startY = row := by omega
      rw [hr] at h6
      exact ⟨h3, h, by omega, by omega, h6⟩
    · right
      exact ⟨by omega, by omega, h3, h4, h5, h6⟩
  · rintro (⟨h0, h1, h2, h3, h4⟩ | ⟨h1, h2, h3, h4, h5, h6⟩)
    · have hr : idx / 64 - startY = row := by omega
      rw [hr]
      exact ⟨by omega, by omega, h0, by omega, by omega, h4⟩
    · exact ⟨by omega, by omega, h3, h4, h5, h6⟩

theorem rowLoop_spec (startX startY : Nat) (hsx : startX ≤ 63) (hsy : startY ≤ 31) (k : Nat) :
    ∀ (row : Nat) (c : Chip), row + k ≤ 16 → c.mIndexRegister + (row + k) ≤ 4096 →
      ∃ c1, Op_Draw.rowLoop startX startY k row c = some c1 ∧
        c1 = { c with mVariableRegisters := c1.mVariableRegisters,
                      mDisplayOutput := c1.mDisplayOutput } ∧
        (∀ i, i ≠ 0xF → c1.mVariableRegisters i = c.mVariableRegisters i) ∧
        (∀ idx, c1.mDisplayOutput idx =
          if Op_Draw.hit c.mHeap c.mIndexRegister startX startY row k idx
          then c.mDisplayOutput idx ^^^ 0xFFFFFFFF else c.mDisplayOutput idx) ∧
        ((∀ idx < 2048, c.mDisplayOutput idx = 0 ∨ c.mDisplayOutput idx = 0xFFFFFFFF) →
          c.mVariableRegisters 0xF ≤ 1 →
          c1.mVariableRegisters 0xF ≤ 1 ∧
          (c1.mVariableRegisters 0xF = 1 ↔
            c.mVariableRegisters 0xF = 1 ∨
              ∃ idx, Op_Draw.hit c.mHeap c.mIndexRegister startX startY row k idx ∧
                c.mDisplayOutput idx = 0xFFFFFFFF)) := by
  induction k with
  | zero =>
    intro row c _ _
    refine ⟨c, rfl, rfl, fun _ _ => rfl, ?_, ?_⟩
    · intro idx; rw [if_neg (hit_zero _ _ _ _ _ _)]
    · intro _ hvf
      refine ⟨hvf, ⟨Or.inl, ?_⟩⟩
      rintro (h | ⟨idx, h, _⟩)
      · exact h
      · exact absurd h (hit_zero _ _ _ _ _ _)
  | succ k ih =>
    intro row c hk hmem
    simp only [Op_Draw.rowLoop, OUTPUT_HEIGHT, HEAP_SIZE]
    have hmod : (startY + row) % 256 = startY + row := by omega
    rw [hmod]
    by_cases hbreak : startY + row ≥ 32
    · rw [if_pos hbreak]
      refine ⟨c, rfl, rfl, fun _ _ => rfl, ?_, ?_⟩
      · intro idx; rw [if_neg (hit_clipped _ _ _ _ _ _ _ hbreak)]
      · intro _ hvf
        refine ⟨hvf, ⟨Or.inl, ?_⟩⟩
        rintro (h | ⟨idx, h, _⟩)
        · exact h
        · exact absurd h (hit_clipped _ _ _ _ _ _ _ hbreak)
    · rw [if_neg hbreak, if_pos (by omega)]
      have hf := colLoop_frame startX (startY + row) (c.mHeap (c.mIndexRegister + row)) 8 0 c
      have hr := colLoop_regs startX (startY + row) (c.mHeap (c.mIndexRegister + row)) 8 0 c
      have hd := fun idx =>
        colLoop_display startX (startY + row) (c.mHeap (c.mIndexRegister + row)) hsx 8 0 c idx
          (by omega)
      have hfl := colLoop_flag startX (startY + row) (c.mHeap (c.mIndexRegister + row)) hsx
        (by omega) 8 0 c (by omega)
      generalize Op_Draw.colLoop startX (startY + row) (c.mHeap (c.mIndexRegister + row)) 8 0 c
        = c2 at hf hr hd hfl
      have hheap : c2.mHeap = c.mHeap := by rw [hf]
      have hI : c2.mIndexRegister = c.mIndexRegister := by rw [hf]
      obtain ⟨c1, hrun, hframe, hregs, hdisp, hflag⟩ :=
        ih (row + 1) c2 (by omega) (by rw [hI]; omega)
      rw [hheap, hI] at hdisp hflag
      refine ⟨c1, hrun, ?_, ?_, ?_, ?_⟩
      · rw [hframe, hf]
      · intro i hi; rw [hregs i hi, hr i hi]
      · intro idx
        rw [hdisp idx, hd idx]
        by_cases h1 : Op_Draw.colHit startX (startY + row) (c.mHeap (c.mIndexRegister + row)) 0 8 idx
        · have h2 : ¬ Op_Draw.hit c.mHeap c.mIndexRegister startX startY (row + 1) k idx := by
            unfold Op_Draw.hit; unfold Op_Draw.colHit at h1; omega
          have h3 : Op_Draw.hit c.mHeap c.mIndexRegister startX startY row (k + 1) idx :=
            (hit_succ _ _ _ _ _ _ _).2 (Or.inl ⟨by unfold Op_Draw.colHit at h1; omega, h1⟩)
          rw [if_neg h2, if_pos h1, if_pos h3]
        · rw [if_neg h1]
          have h3 : Op_Draw.hit c.mHeap c.mIndexRegister startX startY row (k + 1) idx ↔
              Op_Draw.hit c.mHeap c.mIndexRegister startX startY (row + 1) k idx := by
            rw [hit_succ]; tauto
          simp only [h3]
      · intro hbin hvf
        have hbin2 : ∀ idx < 2048, c2.mDisplayOutput idx = 0 ∨ c2.mDisplayOutput idx = 0xFFFFFFFF := by
          intro idx hidx
          rw [hd idx]
          split_ifs
          · rcases hbin idx hidx with h | h <;> rw [h] <;> decide
          · exact hbin idx hidx
        obtain ⟨hle2, hiff2⟩ := hfl hbin hvf
        obtain ⟨hle1, hiff1⟩ := hflag hbin2 hle2
        refine ⟨hle1, ?_⟩
        rw [hiff1, hiff2]
        constructor
        · rintro ((h | ⟨idx, hh, hv⟩) | ⟨idx, hh, hv⟩)
          · exact Or.inl h
          · exact Or.inr ⟨idx, (hit_succ _ _ _ _ _ _ _).2
              (Or.inl ⟨by unfold Op_Draw.colHit at hh; omega, hh⟩), hv⟩
          · have hnc : ¬ Op_Draw.colHit startX (startY + row)
                (c.mHeap (c.mIndexRegister + row)) 0 8 idx := by
              unfold Op_Draw.hit at hh; unfold Op_Draw.colHit; omega
            rw [hd idx, if_neg hnc] at hv
            exact Or.inr ⟨idx, (hit_succ _ _ _ _ _ _ _).2 (Or.inr hh), hv⟩
        · rintro (h | ⟨idx, hh, hv⟩)
          · exact Or.inl (Or.inl h)
          · rcases (hit_succ _ _ _ _ _ _ _).1 hh with ⟨_, h1⟩ | h1
            · exact Or.inl (Or.inr ⟨idx, h1, hv⟩)
            · have hnc : ¬ Op_Draw.colHit startX (startY + row)
                  (c.mHeap (c.mIndexRegister + row)) 0 8 idx := by
                unfold Op_Draw.hit at h1; unfold Op_Draw.colHit; omega
              exact Or.inr ⟨idx, h1, by rw [hd idx, if_neg hnc]; exact hv⟩

theorem Decode_familyD (c : Chip) (X Y N : Nat) (hX : X < 16) (hY : Y < 16) (hN : N < 16)
    (hI : c.mInstruction = 0xD000 + 0x100 * X + 0x10 * Y + N) : Decode c = 0xD000 := by
  have hw : c.mInstruction = 4096 * 13 + (0x100 * X + 0x10 * Y + N) := by omega
  unfold Decode
  rw [hw, top_nibble _ _ (by omega)]
  have := mask_F000 13 (0x100 * X + 0x10 * Y + N) (by omega)
  simp only [mOpcodeMasks, List.getD_cons_succ, List.getD_cons_zero]
  omega

theorem Execute_DXYN (rnd : Nat) (c : Chip) (X Y N : Nat) (hX : X < 16) (hY : Y < 16)
    (hN : N < 16) (hI : c.mInstruction = 0xD000 + 0x100 * X + 0x10 * Y + N) :
    Execute rnd (Decode c) c = Op_Draw c := by
  rw [Decode_familyD c X Y N hX hY hN hI]
  rfl

theorem and_63 (v : Nat) : v &&& (64 - 1) = v % 64 := Nat.and_pow_two_sub_one_eq_mod v 6

theorem and_31 (v : Nat) : v &&& (32 - 1) = v % 32 := Nat.and_pow_two_sub_one_eq_mod v 5

theorem Execute_DXYN_spec (rnd : Nat) (c : Chip) (X Y N : Nat) (hX : X < 16) (hY : Y < 16)
    (hN : N < 16) (hI : c.mInstruction = 0xD000 + 0x100 * X + 0x10 * Y + N)
    (hmem : c.mIndexRegister + N ≤ HEAP_SIZE) :
    ∃ c1, Execute rnd (Decode c) c = some c1 ∧
      c1 = { c with mVariableRegisters := c1.mVariableRegisters,
                    mDisplayOutput := c1.mDisplayOutput } ∧
      (∀ i, i ≠ 0xF → c1.mVariableRegisters i = c.mVariableRegisters i) ∧
      (∀ idx, c1.mDisplayOutput idx =
        if Op_Draw.hit c.mHeap c.mIndexRegister (c.mVariableRegisters X % 64)
            (c.mVariableRegisters Y % 32) 0 N idx
        then c.mDisplayOutput idx ^^^ 0xFFFFFFFF else c.mDisplayOutput idx) ∧
      ((∀ idx < 2048, c.mDisplayOutput idx = 0 ∨ c.mDisplayOutput idx = 0xFFFFFFFF) →
        c1.mVariableRegisters 0xF ≤ 1 ∧
        (c1.mVariableRegisters 0xF = 1 ↔
          ∃ idx, Op_Draw.hit c.mHeap c.mIndexRegister (c.mVariableRegisters X % 64)
              (c.mVariableRegisters Y % 32) 0 N idx ∧
            c.mDisplayOutput idx = 0xFFFFFFFF)) := by
  have hx : GetX c = X := by rw [GetX_eq, hI]; omega
  have hy : GetY c = Y := by rw [GetY_eq, hI]; omega
  have hn : GetN c = N := by rw [GetN_eq, hI]; omega
  rw [Execute_DXYN rnd c X Y N hX hY hN hI]
  simp only [Op_Draw, hx, hy, hn, OUTPUT_WIDTH, OUTPUT_HEIGHT, and_63, and_31]
  simp only [HEAP_SIZE] at hmem
  obtain ⟨c1, hrun, hframe, hregs, hdisp, hflag⟩ :=
    rowLoop_spec (c.mVariableRegisters X % 64) (c.mVariableRegisters Y % 32)
      (by omega) (by omega) N 0
      { c with mVariableRegisters := write c.mVariableRegisters 0xF 0 }
      (by omega) (by simpa using hmem)
  refine ⟨c1, hrun, ?_, ?_, hdisp, ?_⟩
  · rw [hframe]
  · intro i hi
    rw [hregs i hi]
    simp only [write, if_neg hi]
  · intro hbin
    obtain ⟨hle, hiff⟩ := hflag hbin (by simp [write])
    refine ⟨hle, ?_⟩
    rw [hiff]
    constructor
    · rintro (h | h)
      · simp [write] at h
      · exact h
    · exact Or.inr

theorem hit_iff (heap : Nat → Nat) (index startX startY n x y : Nat) (hx : x < 64) :
    Op_Draw.hit heap index startX startY 0 n (y * 64 + x) ↔
      ∃ row col, row < n ∧ col < 8 ∧ x = startX + col ∧ y = startY + row ∧ y < 32 ∧
        (heap (index + row)).testBit (7 - col) = true := by
  have hdiv : (y * 64 + x) / 64 = y := by omega
  have hmod : (y * 64 + x) % 64 = x := by omega
  unfold Op_Draw.hit
  rw [hdiv, hmod]
  constructor
  · rintro ⟨h1, h2, h3, h4, h5, h6⟩
    exact ⟨y - startY, x - startX, by omega, by omega, by omega, by omega, h3, h6⟩
  · rintro ⟨row, col, h1, h2, h3, h4, h5, h6⟩
    have hr : y - startY = row := by omega
    have hc : x - startX = col := by omega
    rw [hr, hc]
    exact ⟨by omega, by omega, h5, by omega, by omega, h6⟩

theorem xor_ones_ne (a : Nat) : a ^^^ 0xFFFFFFFF ≠ a := by
  intro h
  have h2 : a ^^^ 0xFFFFFFFF = a ^^^ 0 := by rw [h, Nat.xor_zero]
  have := Nat.xor_right_injective h2
  omega

theorem hit_exists_iff (c : Chip) (sx sy N : Nat) (v : Nat) :
    (∃ idx, Op_Draw.hit c.mHeap c.mIndexRegister sx sy 0 N idx ∧ c.mDisplayOutput idx = v) ↔
      ∃ row col, row < N ∧ col < 8 ∧ sx + col < OUTPUT_WIDTH ∧ sy + row < OUTPUT_HEIGHT ∧
        (c.mHeap (c.mIndexRegister + row)).testBit (7 - col) = true ∧
        c.mDisplayOutput ((sy + row) * OUTPUT_WIDTH + (sx + col)) = v := by
  simp only [OUTPUT_WIDTH, OUTPUT_HEIGHT]
  constructor
  · rintro ⟨idx, hh, hv⟩
    have hidx : idx = idx / 64 * 64 + idx % 64 := by omega
    rw [hidx] at hh
    obtain ⟨row, col, h1, h2, h3, h4, h5, h6⟩ :=
      (hit_iff _ _ _ _ _ _ _ (Nat.mod_lt _ (by norm_num))).1 hh
    refine ⟨row, col, h1, h2, by omega, by omega, h6, ?_⟩
    rw [← h3, ← h4, ← hidx]
    exact hv
  · rintro ⟨row, col, h1, h2, h3, h4, h5, h6⟩
    exact ⟨_, (hit_iff _ _ _ _ _ _ _ h3).2 ⟨row, col, h1, h2, rfl, rfl, h4, h5⟩, h6⟩

/-! ## The draw instruction -/

/-- C6 as stated fails on a lit display: with every pixel on, the sprite byte
0x80 at the index register and instruction 0xD011 (one row at (0, 0)), the
sprite has an on-bit inside the display and both draws run with the same Vx,
Vy and index register, yet after the second draw VF is 0: the first draw
turned the pixel off, so the second one, which turns it back on, does not
collide. -/
theorem C6_second_draw_on_lit_display_clears_flag :
    (∀ idx < OUTPUT_WIDTH * OUTPUT_HEIGHT,
      drawLit.mDisplayOutput idx = 0 ∨
        drawLit.mDisplayOutput idx = 0xFFFFFFFF) ∧
    drawLit.mIndexRegister + 1 ≤ HEAP_SIZE ∧
    drawLit.mInstruction = 0xD000 + 0x100 * 0 + 0x10 * 1 + 1 ∧
    (drawLit.mVariableRegisters 0 % OUTPUT_WIDTH + 0 < OUTPUT_WIDTH ∧
      drawLit.mVariableRegisters 1 % OUTPUT_HEIGHT + 0 < OUTPUT_HEIGHT ∧
      (drawLit.mHeap
        (drawLit.mIndexRegister + 0)).testBit (7 - 0) = true) ∧
    (Execute 0 (Decode drawLit) drawLit).map
        (fun c1 => (c1.mVariableRegisters 0, c1.mVariableRegisters 1, c1.mIndexRegister))
      = some (drawLit.mVariableRegisters 0,
          drawLit.mVariableRegisters 1,
          drawLit.mIndexRegister) ∧
    ((Execute 0 (Decode drawLit) drawLit).bind
        (fun c1 => Execute 0 (Decode c1) c1)).map
        (fun c2 => (c2.mVariableRegisters 0xF, c2.mDisplayOutput 0)) = some (0, 0xFFFFFFFF) := by
  refine ⟨fun _ _ => Or.inr rfl, by decide, rfl, by decide, by decide, by decide⟩

/-- C6, amended: on a display whose pixels are each 0 or 0xFFFFFFFF and with
the sprite bytes inside memory, the first DXYN returns a state with the same
instruction and index register, and if Vx and Vy have the same values before
the second DXYN as before the first, the second DXYN returns a state whose
display buffer equals the one before the first draw, with VF = 1 whenever
some on-bit of the sprite falls inside the display on a pixel that was off
before the first draw. -/
theorem C6_draw_twice_restores_display (rnd1 rnd2 : Nat) (c : Chip) (X Y N : Nat) (hX : X < 16)
    (hY : Y < 16) (hN : N < 16) (hI : c.mInstruction = 0xD000 + 0x100 * X + 0x10 * Y + N)
    (hmem : c.mIndexRegister + N ≤ HEAP_SIZE)
    (hbin : ∀ idx < OUTPUT_WIDTH * OUTPUT_HEIGHT,
      c.mDisplayOutput idx = 0 ∨ c.mDisplayOutput idx = 0xFFFFFFFF) :
    ∃ c1, Execute rnd1 (Decode c) c = some c1 ∧
      c1.mInstruction = c.mInstruction ∧ c1.mIndexRegister = c.mIndexRegister ∧
      (c1.mVariableRegisters X = c.mVariableRegisters X →
        c1.mVariableRegisters Y = c.mVariableRegisters Y →
        ∃ c2, Execute rnd2 (Decode c1) c1 = some c2 ∧
          (∀ idx, c2.mDisplayOutput idx = c.mDisplayOutput idx) ∧
          ((∃ row col, row < N ∧ col < 8 ∧
              c.mVariableRegisters X % OUTPUT_WIDTH + col < OUTPUT_WIDTH ∧
              c.mVariableRegisters Y % OUTPUT_HEIGHT + row < OUTPUT_HEIGHT ∧
              (c.mHeap (c.mIndexRegister + row)).testBit (7 - col) = true ∧
              c.mDisplayOutput ((c.mVariableRegisters Y % OUTPUT_HEIGHT + row) * OUTPUT_WIDTH
                + (c.mVariableRegisters X % OUTPUT_WIDTH + col)) = 0) →
            c2.mVariableRegisters 0xF = 1)) := by
  obtain ⟨c1, hrun1, hframe1, _, hdisp1, _⟩ := Execute_DXYN_spec rnd1 c X Y N hX hY hN hI hmem
  have hheap : c1.mHeap = c.mHeap := by rw [hframe1]
  have hidx : c1.mIndexRegister = c.mIndexRegister := by rw [hframe1]
  have hins : c1.mInstruction = c.mInstruction := by rw [hframe1]
  refine ⟨c1, hrun1, hins, hidx, ?_⟩
  intro hsx hsy
  have hbin0 : ∀ idx < 2048, c.mDisplayOutput idx = 0 ∨ c.mDisplayOutput idx = 0xFFFFFFFF := by
    simpa [OUTPUT_WIDTH, OUTPUT_HEIGHT] using hbin
  have hbin1 : ∀ idx < 2048, c1.mDisplayOutput idx = 0 ∨ c1.mDisplayOutput idx = 0xFFFFFFFF := by
    intro idx hlt
    rw [hdisp1 idx]
    split_ifs
    · rcases hbin0 idx hlt with h | h <;> rw [h] <;> decide
    · exact hbin0 idx hlt
  obtain ⟨c2, hrun2, _, _, hdisp2, hflag2⟩ :=
    Execute_DXYN_spec rnd2 c1 X Y N hX hY hN (by rw [hins]; exact hI) (by rw [hidx]; exact hmem)
  rw [hheap, hidx, hsx, hsy] at hdisp2 hflag2
  refine ⟨c2, hrun2, ?_, ?_⟩
  · intro idx
    rw [hdisp2 idx, hdisp1 idx]
    split_ifs
    · rw [Nat.xor_assoc, Nat.xor_self, Nat.xor_zero]
    · rfl
  · intro hoff
    obtain ⟨idx, hh, hv⟩ :=
      (hit_exists_iff c (c.mVariableRegisters X % 64) (c.mVariableRegisters Y % 32) N 0).2 hoff
    rw [(hflag2 hbin1).2]
    refine ⟨idx, hh, ?_⟩
    rw [hdisp1 idx, if_pos hh, hv]
    decide

/-- C6 (amended) at `drawOff`: one row, sprite byte 0x80, drawn twice at (0, 0). -/
theorem C6_draw_twice_restores_display_witness :
    ((0 : Nat) < 16 ∧ (1 : Nat) < 16 ∧ (1 : Nat) < 16 ∧
      drawOff.mInstruction = 0xD000 + 0x100 * 0 + 0x10 * 1 + 1 ∧
      drawOff.mIndexRegister + 1 ≤ HEAP_SIZE ∧
      (∀ idx < OUTPUT_WIDTH * OUTPUT_HEIGHT,
        drawOff.mDisplayOutput idx = 0 ∨ drawOff.mDisplayOutput idx = 0xFFFFFFFF)) ∧
    ∃ c1, Execute 0 (Decode drawOff) drawOff = some c1 ∧
      c1.mInstruction = drawOff.mInstruction ∧ c1.mIndexRegister = drawOff.mIndexRegister ∧
      (c1.mVariableRegisters 0 = drawOff.mVariableRegisters 0 →
        c1.mVariableRegisters 1 = drawOff.mVariableRegisters 1 →
        ∃ c2, Execute 0 (Decode c1) c1 = some c2 ∧
          (∀ idx, c2.mDisplayOutput idx = drawOff.mDisplayOutput idx) ∧
          ((∃ row col, row < 1 ∧ col < 8 ∧
              drawOff.mVariableRegisters 0 % OUTPUT_WIDTH + col < OUTPUT_WIDTH ∧
              drawOff.mVariableRegisters 1 % OUTPUT_HEIGHT + row < OUTPUT_HEIGHT ∧
              (drawOff.mHeap (drawOff.mIndexRegister + row)).testBit (7 - col) = true ∧
              drawOff.mDisplayOutput
                ((drawOff.mVariableRegisters 1 % OUTPUT_HEIGHT + row) * OUTPUT_WIDTH
                  + (drawOff.mVariableRegisters 0 % OUTPUT_WIDTH + col)) = 0) →
            c2.mVariableRegisters 0xF = 1)) :=
  ⟨⟨by decide, by decide, by decide, rfl, by decide, fun _ _ => Or.inl rfl⟩,
   C6_draw_twice_restores_display 0 0 drawOff 0 1 1 (by decide) (by decide) (by decide) rfl
     (by decide) (fun _ _ => Or.inl rfl)⟩

/-- C7 (DXYN collision flag): on a display whose pixels are each 0 or
0xFFFFFFFF and with the sprite bytes inside memory, DXYN returns a state in
which VF is 1 if and only if some on-bit of the sprite that is not clipped
lands on a pixel that was on before the instruction, and VF is 0 otherwise. -/
theorem C7_draw_collision_flag (rnd : Nat) (c : Chip) (X Y N : Nat) (hX : X < 16)
    (hY : Y < 16) (hN : N < 16) (hI : c.mInstruction = 0xD000 + 0x100 * X + 0x10 * Y + N)
    (hmem : c.mIndexRegister + N ≤ HEAP_SIZE)
    (hbin : ∀ idx < OUTPUT_WIDTH * OUTPUT_HEIGHT,
      c.mDisplayOutput idx = 0 ∨ c.mDisplayOutput idx = 0xFFFFFFFF) :
    ∃ c1, Execute rnd (Decode c) c = some c1 ∧
      (c1.mVariableRegisters 0xF = 1 ↔
        ∃ row col, row < N ∧ col < 8 ∧
          c.mVariableRegisters X % OUTPUT_WIDTH + col < OUTPUT_WIDTH ∧
          c.mVariableRegisters Y % OUTPUT_HEIGHT + row < OUTPUT_HEIGHT ∧
          (c.mHeap (c.mIndexRegister + row)).testBit (7 - col) = true ∧
          c.mDisplayOutput ((c.mVariableRegisters Y % OUTPUT_HEIGHT + row) * OUTPUT_WIDTH
            + (c.mVariableRegisters X % OUTPUT_WIDTH + col)) = 0xFFFFFFFF) ∧
      (c1.mVariableRegisters 0xF ≠ 1 → c1.mVariableRegisters 0xF = 0) := by
  obtain ⟨c1, hrun, _, _, _, hflag⟩ := Execute_DXYN_spec rnd c X Y N hX hY hN hI hmem
  obtain ⟨hle, hiff⟩ := hflag (by simpa [OUTPUT_WIDTH, OUTPUT_HEIGHT] using hbin)
  refine ⟨c1, hrun, ?_, by omega⟩
  rw [hiff]
  exact hit_exists_iff c _ _ N _

/-- C7 at `drawLit`: one row, sprite byte 0x80, drawn at (0, 0) on a lit display. -/
theorem C7_draw_collision_flag_witness :
    ((0 : Nat) < 16 ∧ (1 : Nat) < 16 ∧ (1 : Nat) < 16 ∧
      drawLit.mInstruction = 0xD000 + 0x100 * 0 + 0x10 * 1 + 1 ∧
      drawLit.mIndexRegister + 1 ≤ HEAP_SIZE ∧
      (∀ idx < OUTPUT_WIDTH * OUTPUT_HEIGHT,
        drawLit.mDisplayOutput idx = 0 ∨ drawLit.mDisplayOutput idx = 0xFFFFFFFF)) ∧
    ∃ c1, Execute 0 (Decode drawLit) drawLit = some c1 ∧
      (c1.mVariableRegisters 0xF = 1 ↔
        ∃ row col, row < 1 ∧ col < 8 ∧
          drawLit.mVariableRegisters 0 % OUTPUT_WIDTH + col < OUTPUT_WIDTH ∧
          drawLit.mVariableRegisters 1 % OUTPUT_HEIGHT + row < OUTPUT_HEIGHT ∧
          (drawLit.mHeap (drawLit.mIndexRegister + row)).testBit (7 - col) = true ∧
          drawLit.mDisplayOutput ((drawLit.mVariableRegisters 1 % OUTPUT_HEIGHT + row) * OUTPUT_WIDTH
            + (drawLit.mVariableRegisters 0 % OUTPUT_WIDTH + col)) = 0xFFFFFFFF) ∧
      (c1.mVariableRegisters 0xF ≠ 1 → c1.mVariableRegisters 0xF = 0) :=
  ⟨⟨by decide, by decide, by decide, rfl, by decide, fun _ _ => Or.inr rfl⟩,
   C7_draw_collision_flag 0 drawLit 0 1 1 (by decide) (by decide) (by decide) rfl (by decide)
     (fun _ _ => Or.inr rfl)⟩

/-- C8 (DXYN clipping): with the sprite bytes inside memory and
sx = Vx mod 64, sy = Vy mod 32 taken before the instruction, DXYN returns a
state in which the pixel at (x, y), x < 64, y < 32, is toggled (XOR with
0xFFFFFFFF) if and only if x = sx + col and y = sy + row for a row < N and a
col < 8 whose bit 7 - col of memory[I + row] is set, and is unchanged
otherwise; nothing wraps around an edge. -/
theorem C8_draw_toggles_clipped_sprite_only (rnd : Nat) (c : Chip) (X Y N : Nat) (hX : X < 16)
    (hY : Y < 16) (hN : N < 16) (hI : c.mInstruction = 0xD000 + 0x100 * X + 0x10 * Y + N)
    (hmem : c.mIndexRegister + N ≤ HEAP_SIZE) :
    ∃ c1, Execute rnd (Decode c) c = some c1 ∧
      ∀ x y, x < OUTPUT_WIDTH → y < OUTPUT_HEIGHT →
        (c1.mDisplayOutput (y * OUTPUT_WIDTH + x)
            = c.mDisplayOutput (y * OUTPUT_WIDTH + x) ^^^ 0xFFFFFFFF ↔
          ∃ row col, row < N ∧ col < 8 ∧
            x = c.mVariableRegisters X % OUTPUT_WIDTH + col ∧
            y = c.mVariableRegisters Y % OUTPUT_HEIGHT + row ∧
            (c.mHeap (c.mIndexRegister + row)).testBit (7 - col) = true) ∧
        ((¬ ∃ row col, row < N ∧ col < 8 ∧
            x = c.mVariableRegisters X % OUTPUT_WIDTH + col ∧
            y = c.mVariableRegisters Y % OUTPUT_HEIGHT + row ∧
            (c.mHeap (c.mIndexRegister + row)).testBit (7 - col) = true) →
          c1.mDisplayOutput (y * OUTPUT_WIDTH + x) = c.mDisplayOutput (y * OUTPUT_WIDTH + x)) := by
  obtain ⟨c1, hrun, _, _, hdisp, _⟩ := Execute_DXYN_spec rnd c X Y N hX hY hN hI hmem
  refine ⟨c1, hrun, ?_⟩
  intro x y hx hy
  simp only [OUTPUT_WIDTH, OUTPUT_HEIGHT] at hx hy ⊢
  have hcov := hit_iff c.mHeap c.mIndexRegister (c.mVariableRegisters X % 64)
    (c.mVariableRegisters Y % 32) N x y hx
  have hcov2 : Op_Draw.hit c.mHeap c.mIndexRegister (c.mVariableRegisters X % 64)
      (c.mVariableRegisters Y % 32) 0 N (y * 64 + x) ↔
      ∃ row col, row < N ∧ col < 8 ∧ x = c.mVariableRegisters X % 64 + col ∧
        y = c.mVariableRegisters Y % 32 + row ∧
        (c.mHeap (c.mIndexRegister + row)).testBit (7 - col) = true := by
    rw [hcov]
    constructor
    · rintro ⟨row, col, h1, h2, h3, h4, _, h6⟩; exact ⟨row, col, h1, h2, h3, h4, h6⟩
    · rintro ⟨row, col, h1, h2, h3, h4, h6⟩; exact ⟨row, col, h1, h2, h3, h4, hy, h6⟩
  rw [← hcov2, hdisp (y * 64 + x)]
  constructor
  · constructor
    · intro h
      by_contra hno
      rw [if_neg hno] at h
      exact xor_ones_ne _ h.symm
    · intro h; rw [if_pos h]
  · intro h; rw [if_neg h]

/-- C8 at `drawOff`: one row, sprite byte 0x80, drawn at (0, 0). -/
theorem C8_draw_toggles_clipped_sprite_only_witness :
    ((0 : Nat) < 16 ∧ (1 : Nat) < 16 ∧ (1 : Nat) < 16 ∧
      drawOff.mInstruction = 0xD000 + 0x100 * 0 + 0x10 * 1 + 1 ∧
      drawOff.mIndexRegister + 1 ≤ HEAP_SIZE) ∧
    ∃ c1, Execute 0 (Decode drawOff) drawOff = some c1 ∧
      ∀ x y, x < OUTPUT_WIDTH → y < OUTPUT_HEIGHT →
        (c1.mDisplayOutput (y * OUTPUT_WIDTH + x)
            = drawOff.mDisplayOutput (y * OUTPUT_WIDTH + x) ^^^ 0xFFFFFFFF ↔
          ∃ row col, row < 1 ∧ col < 8 ∧
            x = drawOff.mVariableRegisters 0 % OUTPUT_WIDTH + col ∧
            y = drawOff.mVariableRegisters 1 % OUTPUT_HEIGHT + row ∧
            (drawOff.mHeap (drawOff.mIndexRegister + row)).testBit (7 - col) = true) ∧
        ((¬ ∃ row col, row < 1 ∧ col < 8 ∧
            x = drawOff.mVariableRegisters 0 % OUTPUT_WIDTH + col ∧
            y = drawOff.mVariableRegisters 1 % OUTPUT_HEIGHT + row ∧
            (drawOff.mHeap (drawOff.mIndexRegister + row)).testBit (7 - col) = true) →
          c1.mDisplayOutput (y * OUTPUT_WIDTH + x)
            = drawOff.mDisplayOutput (y * OUTPUT_WIDTH + x)) :=
  ⟨⟨by decide, by decide, by decide, rfl, by decide⟩,
   C8_draw_toggles_clipped_sprite_only 0 drawOff 0 1 1 (by decide) (by decide) (by decide) rfl
     (by decide)⟩

/-! ## Fetch and the key wait -/

theorem word_eq (hi lo : Nat) (hhi : hi < 256) (hlo : lo < 256) :
    ((hi <<< 8) ||| lo) % 65536 = hi * 256 + lo := by
  have h := Nat.mul_add_lt_is_or (show lo < 2 ^ 8 by omega) hi
  rw [Nat.shiftLeft_eq, Nat.mul_comm hi (2 ^ 8), ← h]
  omega

theorem Decode_FX0A (c : Chip) (X : Nat) (hX : X < 16)
    (hI : c.mInstruction = 0xF00A + 0x100 * X) : Decode c = 0xF00A := by
  have hw : c.mInstruction = 4096 * 15 + (0x100 * X + 0x0A) := by omega
  unfold Decode
  rw [hw, top_nibble _ _ (by omega)]
  have := mask_F0FF 15 (0x100 * X + 0x0A) (by omega)
  simp only [mOpcodeMasks, List.getD_cons_succ, List.getD_cons_zero]
  omega

theorem Execute_FX0A (rnd : Nat) (c : Chip) (X : Nat) (hX : X < 16)
    (hI : c.mInstruction = 0xF00A + 0x100 * X) :
    Execute rnd (Decode c) c = some (Op_GetKey c) := by
  rw [Decode_FX0A c X hX hI]
  rfl

theorem heapU8_keyWait (keys : Nat → Bool) : HeapU8 (keyWait keys) := by
  intro a _
  simp only [keyWait, write]
  split_ifs <;> omega

/-- C9 (FX0A through a full cycle): when the word at the program counter is
FX0A, `Process` returns a state such that, if no key is pressed, the program
counter equals the one before the cycle and every variable register is
unchanged, and, if key k is pressed and no lower-numbered key is, Vx = k and
the program counter is the one before the cycle plus 2. -/
theorem C9_get_key_cycle (rnd : Nat) (c : Chip) (X : Nat) (hX : X < 16)
    (hpc : c.mProgramCounter + 1 < HEAP_SIZE)
    (hhi : c.mHeap c.mProgramCounter = 0xF0 + X)
    (hlo : c.mHeap (c.mProgramCounter + 1) = 0x0A) :
    ∃ c1, Process rnd c = some c1 ∧
      ((∀ k < 16, c.mKeypad k = false) →
        c1.mProgramCounter = c.mProgramCounter ∧
        ∀ i, c1.mVariableRegisters i = c.mVariableRegisters i) ∧
      (∀ k < 16, c.mKeypad k = true → (∀ j < k, c.mKeypad j = false) →
        c1.mVariableRegisters X = k ∧ c1.mProgramCounter = c.mProgramCounter + 2) := by
  simp only [HEAP_SIZE] at hpc
  have hpc2 : (c.mProgramCounter + 2) % 65536 = c.mProgramCounter + 2 := by omega
  obtain ⟨c0, hc0⟩ : ∃ c0 : Chip, c0 =
      { c with mInstruction := 0xF00A + 0x100 * X, mProgramCounter := c.mProgramCounter + 2 } :=
    ⟨_, rfl⟩
  have hfetch : Fetch c = some c0 := by
    simp only [Fetch, HEAP_SIZE]
    rw [if_pos ⟨by omega, hpc⟩, hhi, hlo, word_eq _ _ (by omega) (by omega), hpc2, hc0]
    congr 2
    omega
  have hins : c0.mInstruction = 0xF00A + 0x100 * X := by rw [hc0]
  have hexec := Execute_FX0A rnd c0 X hX hins
  have hx : GetX c0 = X := by rw [GetX_eq, hins]; omega
  have hkeys : c0.mKeypad = c.mKeypad := by rw [hc0]
  have hregs : c0.mVariableRegisters = c.mVariableRegisters := by rw [hc0]
  have hpc0 : c0.mProgramCounter = c.mProgramCounter + 2 := by rw [hc0]
  refine ⟨Op_GetKey c0, by rw [Process, hfetch]; exact hexec, ?_, ?_⟩
  · intro hnone
    have hfind : (List.range 16).find? (fun i => c0.mKeypad i) = none := by
      rw [List.find?_range_eq_none]
      intro i hi
      simp [hkeys, hnone i hi]
    have h1 : (Op_GetKey c0).mProgramCounter = c.mProgramCounter := by
      simp only [Op_GetKey, hfind, toU16, hpc0]; omega
    have h2 : (Op_GetKey c0).mVariableRegisters = c.mVariableRegisters := by
      simp only [Op_GetKey, hfind, hregs]
    exact ⟨h1, fun i => by rw [h2]⟩
  · intro k hk hpressed hlow
    have hfind : (List.range 16).find? (fun i => c0.mKeypad i) = some k := by
      rw [List.find?_range_eq_some]
      refine ⟨by rw [hkeys]; exact hpressed, List.mem_range.2 hk, ?_⟩
      intro j hj
      simp [hkeys, hlow j hj]
    have h1 : (Op_GetKey c0).mVariableRegisters X = k := by
      simp only [Op_GetKey, hfind, hx, write, if_true]; omega
    have h2 : (Op_GetKey c0).mProgramCounter = c.mProgramCounter + 2 := by
      simp only [Op_GetKey, hfind, hpc0]
    exact ⟨h1, h2⟩

/-- C9 at `keyWait` with key 5 pressed and X = 3. -/
theorem C9_get_key_cycle_witness :
    ((3 : Nat) < 16 ∧
      (keyWait (fun i => decide (i = 5))).mProgramCounter + 1 < HEAP_SIZE ∧
      (keyWait (fun i => decide (i = 5))).mHeap
        (keyWait (fun i => decide (i = 5))).mProgramCounter = 0xF0 + 3 ∧
      (keyWait (fun i => decide (i = 5))).mHeap
        ((keyWait (fun i => decide (i = 5))).mProgramCounter + 1) = 0x0A) ∧
    ∃ c1, Process 0 (keyWait (fun i => decide (i = 5))) = some c1 ∧
      ((∀ k < 16, (keyWait (fun i => decide (i = 5))).mKeypad k = false) →
        c1.mProgramCounter = (keyWait (fun i => decide (i = 5))).mProgramCounter ∧
        ∀ i, c1.mVariableRegisters i
          = (keyWait (fun i => decide (i = 5))).mVariableRegisters i) ∧
      (∀ k < 16, (keyWait (fun i => decide (i = 5))).mKeypad k = true →
        (∀ j < k, (keyWait (fun i => decide (i = 5))).mKeypad j = false) →
        c1.mVariableRegisters 3 = k ∧
        c1.mProgramCounter = (keyWait (fun i => decide (i = 5))).mProgramCounter + 2) :=
  ⟨⟨by decide, by decide, by decide, by decide⟩,
   C9_get_key_cycle 0 (keyWait (fun i => decide (i = 5))) 3 (by decide) (by decide) (by decide)
     (by decide)⟩

/-- C10 (Fetch): with programCounter and programCounter + 1 inside memory,
`Fetch` returns the state that differs from the given one only in
currentInstruction, set to memory[programCounter] * 256 +
memory[programCounter + 1], and in programCounter, advanced by exactly 2. -/
theorem C10_fetch (c : Chip) (hpc : c.mProgramCounter < HEAP_SIZE)
    (hpc1 : c.mProgramCounter + 1 < HEAP_SIZE) (hheap : HeapU8 c) :
    Fetch c = some { c with
      mInstruction := c.mHeap c.mProgramCounter * 256 + c.mHeap (c.mProgramCounter + 1)
      mProgramCounter := c.mProgramCounter + 2 } := by
  have h0 := hheap _ hpc
  have h1 := hheap _ hpc1
  simp only [HEAP_SIZE] at hpc hpc1
  have hpc2 : (c.mProgramCounter + 2) % 65536 = c.mProgramCounter + 2 := by omega
  simp only [Fetch, HEAP_SIZE]
  rw [if_pos ⟨hpc, hpc1⟩, word_eq _ _ h0 h1, hpc2]

/-- C10 at `keyWait` with no key pressed: the word at `0x200` is `0xF30A`. -/
theorem C10_fetch_witness :
    ((keyWait (fun _ => false)).mProgramCounter < HEAP_SIZE ∧
      (keyWait (fun _ => false)).mProgramCounter + 1 < HEAP_SIZE ∧
      HeapU8 (keyWait (fun _ => false))) ∧
    Fetch (keyWait (fun _ => false)) = some { keyWait (fun _ => false) with
      mInstruction := (keyWait (fun _ => false)).mHeap (keyWait (fun _ => false)).mProgramCounter
        * 256 + (keyWait (fun _ => false)).mHeap ((keyWait (fun _ => false)).mProgramCounter + 1)
      mProgramCounter := (keyWait (fun _ => false)).mProgramCounter + 2 } :=
  ⟨⟨by decide, by decide, heapU8_keyWait _⟩,
   C10_fetch (keyWait (fun _ => false)) (by decide) (by decide) (heapU8_keyWait _)⟩

/-! ## Unknown opcodes, decoding and timers -/

theorem Fetch_spec (c : Chip) (hpc1 : c.mProgramCounter + 1 < HEAP_SIZE) (hheap : HeapU8 c) :
    Fetch c = some { c with
      mInstruction := c.mHeap c.mProgramCounter * 256 + c.mHeap (c.mProgramCounter + 1)
      mProgramCounter := c.mProgramCounter + 2 } := by
  have h0 := hheap c.mProgramCounter (by omega)
  have h1 := hheap _ hpc1
  simp only [HEAP_SIZE] at hpc1
  have hpc2 : (c.mProgramCounter + 2) % 65536 = c.mProgramCounter + 2 := by omega
  simp only [Fetch, HEAP_SIZE]
  rw [if_pos ⟨by omega, hpc1⟩, word_eq _ _ h0 h1, hpc2]

theorem Decode_congr (c d : Chip) (h : d.mInstruction = c.mInstruction) : Decode d = Decode c := by
  unfold Decode; rw [h]

theorem Decode_family5 (c : Chip) (X Y N : Nat) (hX : X < 16) (hY : Y < 16) (hN : N < 16)
    (hI : c.mInstruction = 0x5000 + 0x100 * X + 0x10 * Y + N) : Decode c = 0x5000 + N := by
  have hw : c.mInstruction = 4096 * 5 + (0x100 * X + 0x10 * Y + N) := by omega
  unfold Decode
  rw [hw, top_nibble _ _ (by omega)]
  have := mask_F00F 5 (0x100 * X + 0x10 * Y + N) (by omega)
  simp only [mOpcodeMasks, List.getD_cons_succ, List.getD_cons_zero]
  omega

theorem heapU8_unboundWord : HeapU8 unboundWord := by
  intro a _
  simp only [unboundWord, write]
  split_ifs <;> omega

theorem unboundWord_key :
    mOpcodeBindings.lookup (Decode { unboundWord with
      mInstruction := unboundWord.mHeap unboundWord.mProgramCounter * 256
        + unboundWord.mHeap (unboundWord.mProgramCounter + 1) }) = none := by
  rw [Decode_family5 _ 1 2 1 (by decide) (by decide) (by decide) (by decide)]
  rfl

/-- C11 (unknown opcode): when the word fetched from inside memory decodes to
a key that is absent from `mOpcodeBindings`, `Process` returns (does not
fail) the state that differs from the given one only in currentInstruction,
which holds the fetched word, and in programCounter, advanced by 2. -/
theorem C11_unbound_opcode_cycle (rnd : Nat) (c : Chip)
    (hpc1 : c.mProgramCounter + 1 < HEAP_SIZE) (hheap : HeapU8 c)
    (hkey : mOpcodeBindings.lookup (Decode { c with
      mInstruction := c.mHeap c.mProgramCounter * 256 + c.mHeap (c.mProgramCounter + 1) })
        = none) :
    Process rnd c = some { c with
      mInstruction := c.mHeap c.mProgramCounter * 256 + c.mHeap (c.mProgramCounter + 1)
      mProgramCounter := c.mProgramCounter + 2 } := by
  rw [Process, Fetch_spec c hpc1 hheap]
  show Execute rnd _ _ = _
  unfold Execute
  have hkey2 : mOpcodeBindings.lookup (Decode { c with
      mInstruction := c.mHeap c.mProgramCounter * 256 + c.mHeap (c.mProgramCounter + 1)
      mProgramCounter := c.mProgramCounter + 2 }) = none := hkey
  rw [hkey2]

/-- C11 at `unboundWord`: the word `0x5121` decodes to the unbound key `0x5001`. -/
theorem C11_unbound_opcode_cycle_witness :
    (unboundWord.mProgramCounter + 1 < HEAP_SIZE ∧ HeapU8 unboundWord ∧
      mOpcodeBindings.lookup (Decode { unboundWord with
        mInstruction := unboundWord.mHeap unboundWord.mProgramCounter * 256
          + unboundWord.mHeap (unboundWord.mProgramCounter + 1) }) = none) ∧
    Process 0 unboundWord = some { unboundWord with
      mInstruction := unboundWord.mHeap unboundWord.mProgramCounter * 256
        + unboundWord.mHeap (unboundWord.mProgramCounter + 1)
      mProgramCounter := unboundWord.mProgramCounter + 2 } :=
  ⟨⟨by decide, heapU8_unboundWord, unboundWord_key⟩,
   C11_unbound_opcode_cycle 0 unboundWord (by decide) heapU8_unboundWord unboundWord_key⟩
theorem mask_FFFF (T low : Nat) (hT : T < 16) (hlow : low < 4096) :
    (4096 * T + low) &&& 0xFFFF = 4096 * T + low := by
  have h := Nat.and_pow_two_sub_one_eq_mod (4096 * T + low) 16
  simp only [Nat.reducePow, Nat.reduceSub] at h
  rw [h]; omega

theorem Decode_split (c : Chip) (T low : Nat) (hlow : low < 4096)
    (hI : c.mInstruction = 4096 * T + low) :
    Decode c = (4096 * T + low) &&& mOpcodeMasks.getD T 0 := by
  unfold Decode
  rw [hI, top_nibble _ _ hlow]

theorem unbound_example_words (c : Chip) (X Y : Nat) (hX : X < 16) (hY : Y < 16)
    (h : c.mInstruction = 0x0000 ∨ c.mInstruction = 0x5001 + 0x100 * X + 0x10 * Y ∨
      c.mInstruction = 0x8008 + 0x100 * X + 0x10 * Y ∨ c.mInstruction = 0xE000 + 0x100 * X ∨
      c.mInstruction = 0xF000 + 0x100 * X) :
    mOpcodeBindings.lookup (Decode c) = none := by
  rcases h with h | h | h | h | h
  · rw [Decode_split c 0 0 (by omega) (by omega)]; rfl
  · rw [Decode_family5 c X Y 1 hX hY (by omega) (by omega)]; rfl
  · rw [Decode_family8 c X Y 8 hX hY (by omega) (by omega)]; rfl
  · rw [Decode_split c 14 (0x100 * X) (by omega) (by omega)]
    have := mask_F0FF 14 (0x100 * X) (by omega)
    simp only [mOpcodeMasks, List.getD_cons_succ, List.getD_cons_zero]
    have h2 : (4096 * 14 + 0x100 * X) &&& 0xF0FF = 0xE000 := by omega
    rw [h2]; rfl
  · rw [Decode_split c 15 (0x100 * X) (by omega) (by omega)]
    have := mask_F0FF 15 (0x100 * X) (by omega)
    simp only [mOpcodeMasks, List.getD_cons_succ, List.getD_cons_zero]
    have h2 : (4096 * 15 + 0x100 * X) &&& 0xF0FF = 0xF000 := by omega
    rw [h2]; rfl

/-- C12 (Decode): for every instruction word, `Decode` returns the word
masked by the entry of `mOpcodeMasks` for its top nibble: 0xFFFF for top
nibble 0x0, 0xF00F for 0x8 and 0x5, 0xF0FF for 0xE and 0xF, and 0xF000 for
0x1, 0xB, 0x2, 0x3, 0x4, 0x6, 0x7, 0xA, 0xC, 0xD and 0x9; these sixteen top
nibbles are all a 16-bit word has; `Decode` is a function of
currentInstruction alone, so two calls on the same instruction agree. -/
theorem C12_decode_masks (c : Chip) :
    (c.mInstruction >>> 12 = 0x0 → Decode c = c.mInstruction &&& 0xFFFF) ∧
    (c.mInstruction >>> 12 = 0x8 → Decode c = c.mInstruction &&& 0xF00F) ∧
    (c.mInstruction >>> 12 = 0xE ∨ c.mInstruction >>> 12 = 0xF →
      Decode c = c.mInstruction &&& 0xF0FF) ∧
    (c.mInstruction >>> 12 ∈ [0x1, 0xB, 0x2, 0x3, 0x4, 0x6, 0x7, 0xA, 0xC, 0xD] →
      Decode c = c.mInstruction &&& 0xF000) ∧
    (∀ d : Chip, d.mInstruction = c.mInstruction → Decode d = Decode c) ∧
    (c.mInstruction >>> 12 = 0x5 → Decode c = c.mInstruction &&& 0xF00F) ∧
    (c.mInstruction >>> 12 = 0x9 → Decode c = c.mInstruction &&& 0xF000) ∧
    (c.mInstruction < 65536 →
      c.mInstruction >>> 12 = 0x0 ∨ c.mInstruction >>> 12 = 0x8 ∨
      (c.mInstruction >>> 12 = 0xE ∨ c.mInstruction >>> 12 = 0xF) ∨
      c.mInstruction >>> 12 ∈ [0x1, 0xB, 0x2, 0x3, 0x4, 0x6, 0x7, 0xA, 0xC, 0xD] ∨
      c.mInstruction >>> 12 = 0x5 ∨ c.mInstruction >>> 12 = 0x9) := by
  refine ⟨?_, ?_, ?_, ?_, ?_, ?_, ?_, ?_⟩
  · intro h; unfold Decode; rw [h]; rfl
  · intro h; unfold Decode; rw [h]; rfl
  · rintro (h | h) <;> (unfold Decode; rw [h]; rfl)
  · intro h
    simp only [List.mem_cons, List.mem_singleton, List.not_mem_nil, or_false] at h
    rcases h with h | h | h | h | h | h | h | h | h | h <;> (unfold Decode; rw [h]; rfl)
  · intro d h; exact Decode_congr c d h
  · intro h; unfold Decode; rw [h]; rfl
  · intro h; unfold Decode; rw [h]; rfl
  · intro h
    have hT : c.mInstruction >>> 12 < 16 := by
      rw [Nat.shiftRight_eq_div_pow]; omega
    simp only [List.mem_cons, List.mem_singleton, List.not_mem_nil, or_false]
    omega

/-- C13 (DecrementTimers): on 8-bit timers, `DecrementTimers` changes only the
two timers, lowering each by 1 if it is nonzero and leaving it at 0
otherwise; after n applications a timer that held t holds max(t - n, 0). -/
theorem C13_decrement_timers (c : Chip) (hd : c.mDelayTimer < 256) (hs : c.mSoundTimer < 256) :
    DecrementTimers c = { c with
      mDelayTimer := if c.mDelayTimer = 0 then 0 else c.mDelayTimer - 1
      mSoundTimer := if c.mSoundTimer = 0 then 0 else c.mSoundTimer - 1 } ∧
    ∀ n : Nat,
      ((Nat.iterate DecrementTimers n c).mDelayTimer : Int)
        = max ((c.mDelayTimer : Int) - (n : Int)) 0 ∧
      ((Nat.iterate DecrementTimers n c).mSoundTimer : Int)
        = max ((c.mSoundTimer : Int) - (n : Int)) 0 := by
  have step : ∀ d : Chip, d.mDelayTimer < 256 → d.mSoundTimer < 256 →
      DecrementTimers d = { d with
        mDelayTimer := if d.mDelayTimer = 0 then 0 else d.mDelayTimer - 1
        mSoundTimer := if d.mSoundTimer = 0 then 0 else d.mSoundTimer - 1 } := by
    intro d h1 h2
    rcases d with ⟨pc, ir, v, hp, st, dsp, q, ins, dt, stt, kp⟩
    simp only at h1 h2
    have e1 : toU8 ((dt : Int) - 1) = dt - 1 ∨ dt = 0 := by unfold toU8; omega
    have e2 : toU8 ((stt : Int) - 1) = stt - 1 ∨ stt = 0 := by unfold toU8; omega
    simp only [DecrementTimers]
    by_cases hd0 : dt = 0 <;> by_cases hs0 : stt = 0
    · subst hd0; subst hs0; rfl
    · subst hd0
      rcases e2 with e2 | e2
      · simp [hs0, Nat.pos_of_ne_zero hs0, e2]
      · exact absurd e2 hs0
    · subst hs0
      rcases e1 with e1 | e1
      · simp [hd0, Nat.pos_of_ne_zero hd0, e1]
      · exact absurd e1 hd0
    · rcases e1 with e1 | e1
      · rcases e2 with e2 | e2
        · simp [hd0, hs0, Nat.pos_of_ne_zero hd0, Nat.pos_of_ne_zero hs0, e1, e2]
        · exact absurd e2 hs0
      · exact absurd e1 hd0
  refine ⟨step c hd hs, ?_⟩
  intro n
  induction n generalizing c with
  | zero => simp only [Nat.iterate]; constructor <;> omega
  | succ n ih =>
    simp only [Nat.iterate]
    have hc := step c hd hs
    have h1 : (DecrementTimers c).mDelayTimer = if c.mDelayTimer = 0 then 0 else c.mDelayTimer - 1 := by
      rw [hc]
    have h2 : (DecrementTimers c).mSoundTimer = if c.mSoundTimer = 0 then 0 else c.mSoundTimer - 1 := by
      rw [hc]
    have hd2 : (DecrementTimers c).mDelayTimer < 256 := by rw [h1]; split_ifs <;> omega
    have hs2 : (DecrementTimers c).mSoundTimer < 256 := by rw [h2]; split_ifs <;> omega
    obtain ⟨i1, i2⟩ := ih (DecrementTimers c) hd2 hs2
    rw [i1, i2, h1, h2]
    constructor <;> split_ifs <;> omega

/-- C13 at `timers 3 0`: delay timer 3, sound timer 0. -/
theorem C13_decrement_timers_witness :
    ((timers 3 0).mDelayTimer < 256 ∧ (timers 3 0).mSoundTimer < 256) ∧
    (DecrementTimers (timers 3 0) = { timers 3 0 with
      mDelayTimer := if (timers 3 0).mDelayTimer = 0 then 0 else (timers 3 0).mDelayTimer - 1
      mSoundTimer := if (timers 3 0).mSoundTimer = 0 then 0 else (timers 3 0).mSoundTimer - 1 } ∧
    ∀ n : Nat,
      ((Nat.iterate DecrementTimers n (timers 3 0)).mDelayTimer : Int)
        = max (((timers 3 0).mDelayTimer : Int) - (n : Int)) 0 ∧
      ((Nat.iterate DecrementTimers n (timers 3 0)).mSoundTimer : Int)
        = max (((timers 3 0).mSoundTimer : Int) - (n : Int)) 0) :=
  ⟨⟨by decide, by decide⟩, C13_decrement_timers (timers 3 0) (by decide) (by decide)⟩

/-! ## Memory instructions -/

theorem Decode_familyF (c : Chip) (X NN : Nat) (hX : X < 16) (hNN : NN < 256)
    (hI : c.mInstruction = 0xF000 + 0x100 * X + NN) : Decode c = 0xF000 + NN := by
  rw [Decode_split c 15 (0x100 * X + NN) (by omega) (by omega)]
  have := mask_F0FF 15 (0x100 * X + NN) (by omega)
  simp only [mOpcodeMasks, List.getD_cons_succ, List.getD_cons_zero]
  omega

theorem storeLoop_spec (k : Nat) :
    ∀ (i : Nat) (c : Chip), c.mIndexRegister + (i + k) ≤ 4096 →
      ∃ c1, Op_StoreMemory.loop k i c = some c1 ∧
        c1 = { c with mHeap := c1.mHeap } ∧
        ∀ a, c1.mHeap a =
          if c.mIndexRegister + i ≤ a ∧ a < c.mIndexRegister + i + k
          then c.mVariableRegisters (a - c.mIndexRegister) else c.mHeap a := by
  induction k with
  | zero =>
    intro i c _
    refine ⟨c, rfl, rfl, ?_⟩
    intro a
    rw [if_neg (by omega)]
  | succ k ih =>
    intro i c hmem
    simp only [Op_StoreMemory.loop, HEAP_SIZE]
    rw [if_pos (by omega)]
    obtain ⟨c1, hrun, hframe, hheap⟩ := ih (i + 1)
      { c with mHeap := write c.mHeap (c.mIndexRegister + i) (c.mVariableRegisters i) }
      (by show c.mIndexRegister + (i + 1 + k) ≤ 4096; omega)
    refine ⟨c1, hrun, ?_, ?_⟩
    · rw [hframe]
    · intro a
      rw [hheap a]
      simp only [write]
      by_cases ha : a = c.mIndexRegister + i
      · have hi : a - c.mIndexRegister = i := by omega
        rw [if_neg (by omega), if_pos ha, if_pos (by omega), hi]
      · rw [if_neg ha]
        by_cases hin : c.mIndexRegister + (i + 1) ≤ a ∧ a < c.mIndexRegister + (i + 1) + k
        · rw [if_pos hin, if_pos (by omega)]
        · rw [if_neg hin, if_neg (by omega)]

theorem loadLoop_spec (k : Nat) :
    ∀ (i : Nat) (c : Chip), c.mIndexRegister + (i + k) ≤ 4096 →
      ∃ c1, Op_LoadMemory.loop k i c = some c1 ∧
        c1 = { c with mVariableRegisters := c1.mVariableRegisters } ∧
        ∀ j, c1.mVariableRegisters j =
          if i ≤ j ∧ j < i + k then c.mHeap (c.mIndexRegister + j)
          else c.mVariableRegisters j := by
  induction k with
  | zero =>
    intro i c _
    refine ⟨c, rfl, rfl, ?_⟩
    intro j
    rw [if_neg (by omega)]
  | succ k ih =>
    intro i c hmem
    simp only [Op_LoadMemory.loop, HEAP_SIZE]
    rw [if_pos (by omega)]
    obtain ⟨c1, hrun, hframe, hregs⟩ := ih (i + 1)
      { c with mVariableRegisters :=
          write c.mVariableRegisters i (c.mHeap (c.mIndexRegister + i)) }
      (by show c.mIndexRegister + (i + 1 + k) ≤ 4096; omega)
    refine ⟨c1, hrun, ?_, ?_⟩
    · rw [hframe]
    · intro j
      rw [hregs j]
      simp only [write]
      by_cases hj : j = i
      · rw [if_neg (by omega), if_pos hj, if_pos (by omega), hj]
      · rw [if_neg hj]
        by_cases hin : i + 1 ≤ j ∧ j < i + 1 + k
        · rw [if_pos hin, if_pos (by omega)]
        · rw [if_neg hin, if_neg (by omega)]

theorem regsU8_memState (instr : Nat) (modern : Bool) : RegsU8 (memState instr modern) := by
  intro i _
  simp only [memState, regs2, write]
  split_ifs <;> omega

theorem Execute_FX55 (rnd : Nat) (c : Chip) (X : Nat) (hX : X < 16)
    (hI : c.mInstruction = 0xF055 + 0x100 * X) :
    Execute rnd (Decode c) c = Op_StoreMemory c := by
  rw [Decode_familyF c X 0x55 hX (by omega) (by omega)]
  rfl

theorem Execute_FX65 (rnd : Nat) (c : Chip) (X : Nat) (hX : X < 16)
    (hI : c.mInstruction = 0xF065 + 0x100 * X) :
    Execute rnd (Decode c) c = Op_LoadMemory c := by
  rw [Decode_familyF c X 0x65 hX (by omega) (by omega)]
  rfl

theorem Execute_FX33 (rnd : Nat) (c : Chip) (X : Nat) (hX : X < 16)
    (hI : c.mInstruction = 0xF033 + 0x100 * X) :
    Execute rnd (Decode c) c = Op_BinaryToDecimal c := by
  rw [Decode_familyF c X 0x33 hX (by omega) (by omega)]
  rfl

/-- C14 (FX55): with indexRegister + X inside memory, FX55 returns a state in
which memory[I + i] = Vi for every i <= X (I the index register before the
instruction), every other memory byte and every variable register is
unchanged, and the index register is unchanged when ModernLoadStore is on and
equals I + X + 1 when it is off; nothing else changes. -/
theorem C14_store_memory (rnd : Nat) (c : Chip) (X : Nat) (hX : X < 16)
    (hI : c.mInstruction = 0xF055 + 0x100 * X)
    (hmem : c.mIndexRegister + X < HEAP_SIZE) :
    ∃ c1, Execute rnd (Decode c) c = some c1 ∧
      (∀ i, i ≤ X → c1.mHeap (c.mIndexRegister + i) = c.mVariableRegisters i) ∧
      (∀ a, (a < c.mIndexRegister ∨ c.mIndexRegister + X < a) → c1.mHeap a = c.mHeap a) ∧
      (∀ i, c1.mVariableRegisters i = c.mVariableRegisters i) ∧
      (c.mQuirks.mModernLoadStore = true → c1.mIndexRegister = c.mIndexRegister) ∧
      (c.mQuirks.mModernLoadStore = false → c1.mIndexRegister = c.mIndexRegister + X + 1) ∧
      c1 = { c with mHeap := c1.mHeap, mIndexRegister := c1.mIndexRegister } := by
  have hx : GetX c = X := by rw [GetX_eq, hI]; omega
  simp only [HEAP_SIZE] at hmem
  obtain ⟨c2, hrun, hframe, hheap⟩ := storeLoop_spec (X + 1) 0 c (by omega)
  have hq : c2.mQuirks = c.mQuirks := by rw [hframe]
  have hi : c2.mIndexRegister = c.mIndexRegister := by rw [hframe]
  have hv : c2.mVariableRegisters = c.mVariableRegisters := by rw [hframe]
  rw [Execute_FX55 rnd c X hX hI]
  simp only [Op_StoreMemory, hx, hrun, Option.map_some']
  have hwrap : (c.mIndexRegister + (X + 1)) % 65536 = c.mIndexRegister + X + 1 := by omega
  cases hquirk : c.mQuirks.mModernLoadStore
  · refine ⟨_, rfl, ?_, ?_, ?_, ?_, ?_, ?_⟩
    · intro i hi2
      simp only [hq, hquirk, Bool.not_false, if_true]
      rw [hheap, if_pos (by omega)]
      congr 1; omega
    · intro a ha
      simp only [hq, hquirk, Bool.not_false, if_true]
      rw [hheap, if_neg (by omega)]
    · intro i
      simp only [hq, hquirk, Bool.not_false, if_true, hv]
    · intro h; exact absurd h (by simp)
    · intro _
      simp only [hq, hquirk, Bool.not_false, if_true, hi, hwrap]
    · simp only [hq, hquirk, Bool.not_false, if_true]
      rw [hframe]
  · refine ⟨_, rfl, ?_, ?_, ?_, ?_, ?_, ?_⟩
    · intro i hi2
      simp only [hq, hquirk, Bool.not_true, Bool.false_eq_true, if_false]
      rw [hheap, if_pos (by omega)]
      congr 1; omega
    · intro a ha
      simp only [hq, hquirk, Bool.not_true, Bool.false_eq_true, if_false]
      rw [hheap, if_neg (by omega)]
    · intro i
      simp only [hq, hquirk, Bool.not_true, Bool.false_eq_true, if_false, hv]
    · intro _
      simp only [hq, hquirk, Bool.not_true, Bool.false_eq_true, if_false, hi]
    · intro h; exact absurd h (by simp)
    · simp only [hq, hquirk, Bool.not_true, Bool.false_eq_true, if_false]
      rw [hframe]
/-- C14 at `memState 0xF155 false`: V0 and V1 are stored at 0x300 and 0x301,
ModernLoadStore off. -/
theorem C14_store_memory_witness :
    ((1 : Nat) < 16 ∧ (memState 0xF155 false).mInstruction = 0xF055 + 0x100 * 1 ∧
      (memState 0xF155 false).mIndexRegister + 1 < HEAP_SIZE) ∧
    ∃ c1, Execute 0 (Decode (memState 0xF155 false)) (memState 0xF155 false) = some c1 ∧
      (∀ i, i ≤ 1 → c1.mHeap ((memState 0xF155 false).mIndexRegister + i)
        = (memState 0xF155 false).mVariableRegisters i) ∧
      (∀ a, (a < (memState 0xF155 false).mIndexRegister ∨
          (memState 0xF155 false).mIndexRegister + 1 < a) →
        c1.mHeap a = (memState 0xF155 false).mHeap a) ∧
      (∀ i, c1.mVariableRegisters i = (memState 0xF155 false).mVariableRegisters i) ∧
      ((memState 0xF155 false).mQuirks.mModernLoadStore = true →
        c1.mIndexRegister = (memState 0xF155 false).mIndexRegister) ∧
      ((memState 0xF155 false).mQuirks.mModernLoadStore = false →
        c1.mIndexRegister = (memState 0xF155 false).mIndexRegister + 1 + 1) ∧
      c1 = { memState 0xF155 false with mHeap := c1.mHeap, mIndexRegister := c1.mIndexRegister } :=
  ⟨⟨by decide, rfl, by decide⟩,
   C14_store_memory 0 (memState 0xF155 false) 1 (by decide) rfl (by decide)⟩

/-- C15 (FX65): with indexRegister + X inside memory, FX65 returns a state in
which Vi = memory[I + i] for every i <= X (I the index register before the
instruction), the registers above VX and all of memory are unchanged, and
the index register is unchanged when ModernLoadStore is on and equals
I + X + 1 when it is off; nothing else changes. -/
theorem C15_load_memory (rnd : Nat) (c : Chip) (X : Nat) (hX : X < 16)
    (hI : c.mInstruction = 0xF065 + 0x100 * X)
    (hmem : c.mIndexRegister + X < HEAP_SIZE) :
    ∃ c1, Execute rnd (Decode c) c = some c1 ∧
      (∀ i, i ≤ X → c1.mVariableRegisters i = c.mHeap (c.mIndexRegister + i)) ∧
      (∀ i, X < i → c1.mVariableRegisters i = c.mVariableRegisters i) ∧
      (∀ a, c1.mHeap a = c.mHeap a) ∧
      (c.mQuirks.mModernLoadStore = true → c1.mIndexRegister = c.mIndexRegister) ∧
      (c.mQuirks.mModernLoadStore = false → c1.mIndexRegister = c.mIndexRegister + X + 1) ∧
      c1 = { c with mVariableRegisters := c1.mVariableRegisters,
                    mIndexRegister := c1.mIndexRegister } := by
  have hx : GetX c = X := by rw [GetX_eq, hI]; omega
  simp only [HEAP_SIZE] at hmem
  obtain ⟨c2, hrun, hframe, hregs⟩ := loadLoop_spec (X + 1) 0 c (by omega)
  have hq : c2.mQuirks = c.mQuirks := by rw [hframe]
  have hi : c2.mIndexRegister = c.mIndexRegister := by rw [hframe]
  have hh : c2.mHeap = c.mHeap := by rw [hframe]
  rw [Execute_FX65 rnd c X hX hI]
  simp only [Op_LoadMemory, hx, hrun, Option.map_some']
  have hwrap : (c.mIndexRegister + (X + 1)) % 65536 = c.mIndexRegister + X + 1 := by omega
  cases hquirk : c.mQuirks.mModernLoadStore
  · refine ⟨_, rfl, ?_, ?_, ?_, ?_, ?_, ?_⟩
    · intro i hi2
      simp only [hq, hquirk, Bool.not_false, if_true]
      rw [hregs, if_pos (by omega)]
    · intro i hi2
      simp only [hq, hquirk, Bool.not_false, if_true]
      rw [hregs, if_neg (by omega)]
    · intro a
      simp only [hq, hquirk, Bool.not_false, if_true, hh]
    · intro h; exact absurd h (by simp)
    · intro _
      simp only [hq, hquirk, Bool.not_false, if_true, hi, hwrap]
    · simp only [hq, hquirk, Bool.not_false, if_true]
      rw [hframe]
  · refine ⟨_, rfl, ?_, ?_, ?_, ?_, ?_, ?_⟩
    · intro i hi2
      simp only [hq, hquirk, Bool.not_true, Bool.false_eq_true, if_false]
      rw [hregs, if_pos (by omega)]
    · intro i hi2
      simp only [hq, hquirk, Bool.not_true, Bool.false_eq_true, if_false]
      rw [hregs, if_neg (by omega)]
    · intro a
      simp only [hq, hquirk, Bool.not_true, Bool.false_eq_true, if_false, hh]
    · intro _
      simp only [hq, hquirk, Bool.not_true, Bool.false_eq_true, if_false, hi]
    · intro h; exact absurd h (by simp)
    · simp only [hq, hquirk, Bool.not_true, Bool.false_eq_true, if_false]
      rw [hframe]

/-- C15 at `memState 0xF165 true`: V0 and V1 are loaded from 0x300 and 0x301,
ModernLoadStore on. -/
theorem C15_load_memory_witness :
    ((1 : Nat) < 16 ∧ (memState 0xF165 true).mInstruction = 0xF065 + 0x100 * 1 ∧
      (memState 0xF165 true).mIndexRegister + 1 < HEAP_SIZE) ∧
    ∃ c1, Execute 0 (Decode (memState 0xF165 true)) (memState 0xF165 true) = some c1 ∧
      (∀ i, i ≤ 1 → c1.mVariableRegisters i
        = (memState 0xF165 true).mHeap ((memState 0xF165 true).mIndexRegister + i)) ∧
      (∀ i, 1 < i → c1.mVariableRegisters i = (memState 0xF165 true).mVariableRegisters i) ∧
      (∀ a, c1.mHeap a = (memState 0xF165 true).mHeap a) ∧
      ((memState 0xF165 true).mQuirks.mModernLoadStore = true →
        c1.mIndexRegister = (memState 0xF165 true).mIndexRegister) ∧
      ((memState 0xF165 true).mQuirks.mModernLoadStore = false →
        c1.mIndexRegister = (memState 0xF165 true).mIndexRegister + 1 + 1) ∧
      c1 = { memState 0xF165 true with mVariableRegisters := c1.mVariableRegisters,
                                       mIndexRegister := c1.mIndexRegister } :=
  ⟨⟨by decide, rfl, by decide⟩,
   C15_load_memory 0 (memState 0xF165 true) 1 (by decide) rfl (by decide)⟩

/-- C16 (FX33): with indexRegister + 2 inside memory and 8-bit registers,
FX33 returns a state whose bytes at I, I+1, I+2 are decimal digits (the
first at most 2, the others at most 9) with
100 * memory[I] + 10 * memory[I+1] + memory[I+2] = Vx; every other memory
byte, every register and the index register are unchanged. -/
theorem C16_binary_to_decimal (rnd : Nat) (c : Chip) (X : Nat) (hX : X < 16)
    (hI : c.mInstruction = 0xF033 + 0x100 * X)
    (hmem : c.mIndexRegister + 2 < HEAP_SIZE) (hregs : RegsU8 c) :
    ∃ c1, Execute rnd (Decode c) c = some c1 ∧
      c1.mHeap c.mIndexRegister ≤ 2 ∧
      c1.mHeap (c.mIndexRegister + 1) ≤ 9 ∧
      c1.mHeap (c.mIndexRegister + 2) ≤ 9 ∧
      100 * c1.mHeap c.mIndexRegister + 10 * c1.mHeap (c.mIndexRegister + 1)
        + c1.mHeap (c.mIndexRegister + 2) = c.mVariableRegisters X ∧
      (∀ a, a ≠ c.mIndexRegister → a ≠ c.mIndexRegister + 1 → a ≠ c.mIndexRegister + 2 →
        c1.mHeap a = c.mHeap a) ∧
      c1 = { c with mHeap := c1.mHeap } := by
  have hx : GetX c = X := by rw [GetX_eq, hI]; omega
  have hv := hregs X hX
  rw [Execute_FX33 rnd c X hX hI]
  simp only [Op_BinaryToDecimal, hx, if_pos hmem, Nat.add_zero]
  refine ⟨_, rfl, ?_, ?_, ?_, ?_, ?_, rfl⟩
  · simp only [write]
    split_ifs <;> omega
  · simp only [write]
    split_ifs <;> omega
  · simp only [write]
    split_ifs <;> omega
  · simp only [write]
    split_ifs <;> omega
  · intro a h0 h1 h2
    simp only [write]
    rw [if_neg h2, if_neg h1, if_neg h0]

/-- C16 at `memState 0xF033 true`: V0 = 234 is written as 2, 3, 4. -/
theorem C16_binary_to_decimal_witness :
    ((0 : Nat) < 16 ∧ (memState 0xF033 true).mInstruction = 0xF033 + 0x100 * 0 ∧
      (memState 0xF033 true).mIndexRegister + 2 < HEAP_SIZE ∧ RegsU8 (memState 0xF033 true)) ∧
    ∃ c1, Execute 0 (Decode (memState 0xF033 true)) (memState 0xF033 true) = some c1 ∧
      c1.mHeap (memState 0xF033 true).mIndexRegister ≤ 2 ∧
      c1.mHeap ((memState 0xF033 true).mIndexRegister + 1) ≤ 9 ∧
      c1.mHeap ((memState 0xF033 true).mIndexRegister + 2) ≤ 9 ∧
      100 * c1.mHeap (memState 0xF033 true).mIndexRegister
        + 10 * c1.mHeap ((memState 0xF033 true).mIndexRegister + 1)
        + c1.mHeap ((memState 0xF033 true).mIndexRegister + 2)
        = (memState 0xF033 true).mVariableRegisters 0 ∧
      (∀ a, a ≠ (memState 0xF033 true).mIndexRegister →
        a ≠ (memState 0xF033 true).mIndexRegister + 1 →
        a ≠ (memState 0xF033 true).mIndexRegister + 2 →
        c1.mHeap a = (memState 0xF033 true).mHeap a) ∧
      c1 = { memState 0xF033 true with mHeap := c1.mHeap } :=
  ⟨⟨by decide, rfl, by decide, regsU8_memState _ _⟩,
   C16_binary_to_decimal 0 (memState 0xF033 true) 0 (by decide) rfl (by decide)
     (regsU8_memState _ _)⟩

/-! ## Font, jump, call and clear instructions -/

theorem GetNN_eq (c : Chip) : GetNN c = c.mInstruction % 256 := by
  unfold GetNN
  exact Nat.and_pow_two_sub_one_eq_mod _ 8

theorem GetNNN_eq (c : Chip) : GetNNN c = c.mInstruction % 4096 := by
  unfold GetNNN
  exact Nat.and_pow_two_sub_one_eq_mod _ 12

theorem Decode_family0 (c : Chip) (w : Nat) (hw : w < 4096) (hI : c.mInstruction = w) :
    Decode c = w := by
  rw [Decode_split c 0 w hw (by omega)]
  have := mask_FFFF 0 w (by omega) hw
  simp only [mOpcodeMasks, List.getD_cons_zero]
  omega

theorem Decode_family2 (c : Chip) (NNN : Nat) (hN : NNN < 4096)
    (hI : c.mInstruction = 0x2000 + NNN) : Decode c = 0x2000 := by
  rw [Decode_split c 2 NNN hN (by omega)]
  have := mask_F000 2 NNN hN
  simp only [mOpcodeMasks, List.getD_cons_succ, List.getD_cons_zero]
  omega

theorem Decode_familyB (c : Chip) (NNN : Nat) (hN : NNN < 4096)
    (hI : c.mInstruction = 0xB000 + NNN) : Decode c = 0xB000 := by
  rw [Decode_split c 11 NNN hN (by omega)]
  have := mask_F000 11 NNN hN
  simp only [mOpcodeMasks, List.getD_cons_succ, List.getD_cons_zero]
  omega

theorem Execute_FX29 (rnd : Nat) (c : Chip) (X : Nat) (hX : X < 16)
    (hI : c.mInstruction = 0xF029 + 0x100 * X) :
    Execute rnd (Decode c) c = some (Op_SetFontCharacter c) := by
  rw [Decode_familyF c X 0x29 hX (by omega) (by omega)]
  rfl

theorem Execute_BNNN (rnd : Nat) (c : Chip) (NNN : Nat) (hN : NNN < 4096)
    (hI : c.mInstruction = 0xB000 + NNN) :
    Execute rnd (Decode c) c = some (Op_JumpWithOffset c) := by
  rw [Decode_familyB c NNN hN hI]
  rfl

theorem Execute_2NNN (rnd : Nat) (c : Chip) (NNN : Nat) (hN : NNN < 4096)
    (hI : c.mInstruction = 0x2000 + NNN) :
    Execute rnd (Decode c) c = some (Op_PushSubroutine c) := by
  rw [Decode_family2 c NNN hN hI]
  rfl

theorem Execute_00EE (rnd : Nat) (c : Chip) (hI : c.mInstruction = 0x00EE) :
    Execute rnd (Decode c) c = Op_PopSubroutine c := by
  rw [Decode_family0 c 0x00EE (by omega) hI]
  rfl

theorem Execute_00E0 (rnd : Nat) (c : Chip) (hI : c.mInstruction = 0x00E0) :
    Execute rnd (Decode c) c = some (Op_ClearScreen c) := by
  rw [Decode_family0 c 0x00E0 (by omega) hI]
  rfl

/-- C17 as stated fails for Vx = 52: in the freshly constructed state with
V0 = 52 and instruction 0xF029, memory[0x50 + 52 * 5] = memory[0x154] is 0,
but FX29 sets the index register to 0xF0 = memory[0x54], because the
character index 52 * 5 = 260 is cut to eight bits (260 mod 256 = 4). -/
theorem C17_font_index_wraps_at_52 :
    (fontState 0xF029 52).mVariableRegisters 0 < 256 ∧
    (fontState 0xF029 52).mHeap (0x50 + (fontState 0xF029 52).mVariableRegisters 0 * 5) = 0 ∧
    (Execute 0 (Decode (fontState 0xF029 52)) (fontState 0xF029 52)).map
      (fun c => c.mIndexRegister) = some 0xF0 := by
  decide

/-- C17, amended: FX29 sets the index register to the byte stored at
memory[0x50 + (Vx * 5 mod 256)] and changes nothing else; for Vx <= 51 that
is the byte at memory[0x50 + Vx * 5]. -/
theorem C17_set_font_character (rnd : Nat) (c : Chip) (X : Nat) (hX : X < 16)
    (hI : c.mInstruction = 0xF029 + 0x100 * X) :
    Execute rnd (Decode c) c
      = some { c with mIndexRegister := c.mHeap (0x50 + c.mVariableRegisters X * 5 % 256) } ∧
    (c.mVariableRegisters X ≤ 51 →
      Execute rnd (Decode c) c
        = some { c with mIndexRegister := c.mHeap (0x50 + c.mVariableRegisters X * 5) }) := by
  have hx : GetX c = X := by rw [GetX_eq, hI]; omega
  rw [Execute_FX29 rnd c X hX hI]
  simp only [Op_SetFontCharacter, hx]
  refine ⟨trivial, ?_⟩
  intro h
  have : c.mVariableRegisters X * 5 % 256 = c.mVariableRegisters X * 5 := by omega
  rw [this]

/-- C17 (amended) at the constructed state with V0 = 2 and instruction 0xF029. -/
theorem C17_set_font_character_witness :
    ((0 : Nat) < 16 ∧ (fontState 0xF029 2).mInstruction = 0xF029 + 0x100 * 0) ∧
    (Execute 0 (Decode (fontState 0xF029 2)) (fontState 0xF029 2)
      = some { fontState 0xF029 2 with
          mIndexRegister :=
            (fontState 0xF029 2).mHeap
              (0x50 + (fontState 0xF029 2).mVariableRegisters 0 * 5 % 256) } ∧
    ((fontState 0xF029 2).mVariableRegisters 0 ≤ 51 →
      Execute 0 (Decode (fontState 0xF029 2)) (fontState 0xF029 2)
        = some { fontState 0xF029 2 with
            mIndexRegister :=
              (fontState 0xF029 2).mHeap
                (0x50 + (fontState 0xF029 2).mVariableRegisters 0 * 5) })) :=
  ⟨⟨by decide, rfl⟩, C17_set_font_character 0 (fontState 0xF029 2) 0 (by decide) rfl⟩
theorem shift8_or (X NN : Nat) (hNN : NN < 256) : (X <<< 8) ||| NN = 0x100 * X + NN := by
  have h := Nat.mul_add_lt_is_or (show NN < 2 ^ 8 by omega) X
  rw [Nat.shiftLeft_eq, Nat.mul_comm X (2 ^ 8), ← h]

/-- C18 (BNNN): for the word 0xB000 + NNN with NNN = 0x100 * X + NN, BNNN
changes only the program counter, which becomes NNN + V0 as a 16-bit value
when SuperChipJump is off and ((X << 8) | NN) + Vx as a 16-bit value when it
is on, where (X << 8) | NN = NNN. -/
theorem C18_jump_with_offset (rnd : Nat) (c : Chip) (X NN : Nat) (hX : X < 16) (hNN : NN < 256)
    (hI : c.mInstruction = 0xB000 + 0x100 * X + NN) :
    ∃ c1, Execute rnd (Decode c) c = some c1 ∧
      (c.mQuirks.mSuperChipJump = false →
        c1.mProgramCounter = (0x100 * X + NN + c.mVariableRegisters 0) % 65536) ∧
      (c.mQuirks.mSuperChipJump = true →
        c1.mProgramCounter = (((X <<< 8) ||| NN) + c.mVariableRegisters X) % 65536) ∧
      ((X <<< 8) ||| NN) = 0x100 * X + NN ∧
      c1 = { c with mProgramCounter := c1.mProgramCounter } := by
  have hx : GetX c = X := by rw [GetX_eq, hI]; omega
  have hnn : GetNN c = NN := by rw [GetNN_eq, hI]; omega
  have hnnn : GetNNN c = 0x100 * X + NN := by rw [GetNNN_eq, hI]; omega
  have hor := shift8_or X NN hNN
  rw [Execute_BNNN rnd c (0x100 * X + NN) (by omega) (by omega)]
  refine ⟨_, rfl, ?_, ?_, hor, ?_⟩
  · intro hq
    simp only [Op_JumpWithOffset, hq, hnnn, Bool.false_eq_true, if_false]
  · intro hq
    simp only [Op_JumpWithOffset, hq, hx, hnn, if_true, hor]
    congr 1
    omega
  · unfold Op_JumpWithOffset
    split_ifs <;> rfl

/-- C18 at `jumpState 0xB123 true`: SuperChipJump on, X = 1, V1 = 0x20. -/
theorem C18_jump_with_offset_witness :
    ((1 : Nat) < 16 ∧ (0x23 : Nat) < 256 ∧
      (jumpState 0xB123 true).mInstruction = 0xB000 + 0x100 * 1 + 0x23) ∧
    ∃ c1, Execute 0 (Decode (jumpState 0xB123 true)) (jumpState 0xB123 true) = some c1 ∧
      ((jumpState 0xB123 true).mQuirks.mSuperChipJump = false →
        c1.mProgramCounter
          = (0x100 * 1 + 0x23 + (jumpState 0xB123 true).mVariableRegisters 0) % 65536) ∧
      ((jumpState 0xB123 true).mQuirks.mSuperChipJump = true →
        c1.mProgramCounter
          = (((1 <<< 8) ||| 0x23) + (jumpState 0xB123 true).mVariableRegisters 1) % 65536) ∧
      ((1 <<< 8) ||| 0x23) = 0x100 * 1 + 0x23 ∧
      c1 = { jumpState 0xB123 true with mProgramCounter := c1.mProgramCounter } :=
  ⟨⟨by decide, by decide, rfl⟩,
   C18_jump_with_offset 0 (jumpState 0xB123 true) 1 0x23 (by decide) (by decide) rfl⟩

/-- C19 (2NNN and 00EE): 2NNN pushes the current program counter on top of the
call stack and sets the program counter to NNN, changing nothing else; 00EE
on a stack `top :: rest` sets the program counter to `top` and leaves `rest`;
so 00EE right after 2NNN restores the program counter and the call stack to
their values before the 2NNN handler ran, and two returns on a stack
`b :: a :: rest` yield `b` first and `a` second (last in, first out). -/
theorem C19_call_and_return (rnd1 rnd2 rnd3 : Nat) (c : Chip) (NNN : Nat) (hN : NNN < 4096)
    (hI : c.mInstruction = 0x2000 + NNN) :
    Execute rnd1 (Decode c) c
      = some { c with mStack := c.mProgramCounter :: c.mStack, mProgramCounter := NNN } ∧
    (∀ (d : Chip) (top : Nat) (rest : List Nat), d.mInstruction = 0x00EE →
      d.mStack = top :: rest →
      Execute rnd2 (Decode d) d = some { d with mProgramCounter := top, mStack := rest }) ∧
    (∃ c1, Execute rnd1 (Decode c) c = some c1 ∧
      ∃ c2, Execute rnd2 (Decode { c1 with mInstruction := 0x00EE })
          { c1 with mInstruction := 0x00EE } = some c2 ∧
        c2.mProgramCounter = c.mProgramCounter ∧ c2.mStack = c.mStack) ∧
    (∀ (d : Chip) (a b : Nat) (rest : List Nat), d.mInstruction = 0x00EE →
      d.mStack = b :: a :: rest →
      ∃ d1, Execute rnd2 (Decode d) d = some d1 ∧ d1.mProgramCounter = b ∧
        ∃ d2, Execute rnd3 (Decode d1) d1 = some d2 ∧ d2.mProgramCounter = a ∧
          d2.mStack = rest) := by
  have hnnn : GetNNN c = NNN := by rw [GetNNN_eq, hI]; omega
  have hpush : Execute rnd1 (Decode c) c
      = some { c with mStack := c.mProgramCounter :: c.mStack, mProgramCounter := NNN } := by
    rw [Execute_2NNN rnd1 c NNN hN hI]
    simp only [Op_PushSubroutine, hnnn]
  have hpop : ∀ (r : Nat) (d : Chip) (top : Nat) (rest : List Nat), d.mInstruction = 0x00EE →
      d.mStack = top :: rest →
      Execute r (Decode d) d = some { d with mProgramCounter := top, mStack := rest } := by
    intro r d top rest hd hs
    rw [Execute_00EE r d hd]
    unfold Op_PopSubroutine
    rw [hs]
  refine ⟨hpush, hpop rnd2, ?_, ?_⟩
  · refine ⟨_, hpush, _, hpop rnd2 _ c.mProgramCounter c.mStack rfl rfl, rfl, rfl⟩
  · intro d a b rest hd hs
    refine ⟨_, hpop rnd2 d b (a :: rest) hd hs, rfl, _, hpop rnd3 _ a rest hd rfl, rfl, rfl⟩

/-- C19 at `callState 0x2345 [0x20A]`: a call from 0x200 with one return
address already on the stack. -/
theorem C19_call_and_return_witness :
    ((0x345 : Nat) < 4096 ∧ (callState 0x2345 [0x20A]).mInstruction = 0x2000 + 0x345) ∧
    (Execute 0 (Decode (callState 0x2345 [0x20A])) (callState 0x2345 [0x20A])
      = some { callState 0x2345 [0x20A] with
          mStack := (callState 0x2345 [0x20A]).mProgramCounter :: (callState 0x2345 [0x20A]).mStack
          mProgramCounter := 0x345 } ∧
    (∀ (d : Chip) (top : Nat) (rest : List Nat), d.mInstruction = 0x00EE →
      d.mStack = top :: rest →
      Execute 0 (Decode d) d = some { d with mProgramCounter := top, mStack := rest }) ∧
    (∃ c1, Execute 0 (Decode (callState 0x2345 [0x20A])) (callState 0x2345 [0x20A]) = some c1 ∧
      ∃ c2, Execute 0 (Decode { c1 with mInstruction := 0x00EE })
          { c1 with mInstruction := 0x00EE } = some c2 ∧
        c2.mProgramCounter = (callState 0x2345 [0x20A]).mProgramCounter ∧
        c2.mStack = (callState 0x2345 [0x20A]).mStack) ∧
    (∀ (d : Chip) (a b : Nat) (rest : List Nat), d.mInstruction = 0x00EE →
      d.mStack = b :: a :: rest →
      ∃ d1, Execute 0 (Decode d) d = some d1 ∧ d1.mProgramCounter = b ∧
        ∃ d2, Execute 0 (Decode d1) d1 = some d2 ∧ d2.mProgramCounter = a ∧
          d2.mStack = rest)) :=
  ⟨⟨by decide, rfl⟩, C19_call_and_return 0 0 0 (callState 0x2345 [0x20A]) 0x345 (by decide) rfl⟩

/-- C20 (00E0): 00E0 changes only the display buffer and leaves each of the
64 * 32 pixels off; so for a DXYN whose sprite bytes lie inside memory,
drawing and then executing 00E0 returns a state with every pixel off. -/
theorem C20_clear_screen (rnd1 rnd2 : Nat) (c : Chip) (X Y N : Nat) (hX : X < 16) (hY : Y < 16)
    (hN : N < 16) (hI : c.mInstruction = 0xD000 + 0x100 * X + 0x10 * Y + N)
    (hmem : c.mIndexRegister + N ≤ HEAP_SIZE) :
    (∀ d : Chip, d.mInstruction = 0x00E0 →
      ∃ d1, Execute rnd2 (Decode d) d = some d1 ∧
        (∀ idx, idx < OUTPUT_WIDTH * OUTPUT_HEIGHT → d1.mDisplayOutput idx = 0) ∧
        d1 = { d with mDisplayOutput := d1.mDisplayOutput }) ∧
    ∃ c1, Execute rnd1 (Decode c) c = some c1 ∧
      ∃ c2, Execute rnd2 (Decode { c1 with mInstruction := 0x00E0 })
          { c1 with mInstruction := 0x00E0 } = some c2 ∧
        ∀ idx, idx < OUTPUT_WIDTH * OUTPUT_HEIGHT → c2.mDisplayOutput idx = 0 := by
  have hclear : ∀ d : Chip, d.mInstruction = 0x00E0 →
      ∃ d1, Execute rnd2 (Decode d) d = some d1 ∧
        (∀ idx, idx < OUTPUT_WIDTH * OUTPUT_HEIGHT → d1.mDisplayOutput idx = 0) ∧
        d1 = { d with mDisplayOutput := d1.mDisplayOutput } := by
    intro d hd
    refine ⟨_, Execute_00E0 rnd2 d hd, ?_, rfl⟩
    intro idx hidx
    simp only [Op_ClearScreen, if_pos hidx]
  refine ⟨hclear, ?_⟩
  obtain ⟨c1, hrun, _⟩ := Execute_DXYN_spec rnd1 c X Y N hX hY hN hI hmem
  obtain ⟨c2, hrun2, hoff, _⟩ := hclear { c1 with mInstruction := 0x00E0 } rfl
  exact ⟨c1, hrun, c2, hrun2, hoff⟩

/-- C20 at `drawLit`: one sprite row drawn on a lit display, then 00E0. -/
theorem C20_clear_screen_witness :
    ((0 : Nat) < 16 ∧ (1 : Nat) < 16 ∧ (1 : Nat) < 16 ∧
      drawLit.mInstruction = 0xD000 + 0x100 * 0 + 0x10 * 1 + 1 ∧
      drawLit.mIndexRegister + 1 ≤ HEAP_SIZE) ∧
    ((∀ d : Chip, d.mInstruction = 0x00E0 →
      ∃ d1, Execute 0 (Decode d) d = some d1 ∧
        (∀ idx, idx < OUTPUT_WIDTH * OUTPUT_HEIGHT → d1.mDisplayOutput idx = 0) ∧
        d1 = { d with mDisplayOutput := d1.mDisplayOutput }) ∧
    ∃ c1, Execute 0 (Decode drawLit) drawLit = some c1 ∧
      ∃ c2, Execute 0 (Decode { c1 with mInstruction := 0x00E0 })
          { c1 with mInstruction := 0x00E0 } = some c2 ∧
        ∀ idx, idx < OUTPUT_WIDTH * OUTPUT_HEIGHT → c2.mDisplayOutput idx = 0) :=
  ⟨⟨by decide, by decide, by decide, rfl, by decide⟩,
   C20_clear_screen 0 0 drawLit 0 1 1 (by decide) (by decide) (by decide) rfl (by decide)⟩

/-- C12 at the words 0x8125, 0x5121 and 0x9120: the keys are the words masked
by 0xF00F, 0xF00F and 0xF000. -/
theorem C12_decode_masks_witness :
    ((withRegs 0x8125 (regs2 0 0)).mInstruction >>> 12 = 0x8 ∧
      Decode (withRegs 0x8125 (regs2 0 0))
        = (withRegs 0x8125 (regs2 0 0)).mInstruction &&& 0xF00F) ∧
    ((withRegs 0x5121 (regs2 0 0)).mInstruction >>> 12 = 0x5 ∧
      Decode (withRegs 0x5121 (regs2 0 0))
        = (withRegs 0x5121 (regs2 0 0)).mInstruction &&& 0xF00F) ∧
    ((withRegs 0x9120 (regs2 0 0)).mInstruction >>> 12 = 0x9 ∧
      Decode (withRegs 0x9120 (regs2 0 0))
        = (withRegs 0x9120 (regs2 0 0)).mInstruction &&& 0xF000) :=
  ⟨⟨by decide, (C12_decode_masks (withRegs 0x8125 (regs2 0 0))).2.1 (by decide)⟩,
   ⟨by decide, (C12_decode_masks (withRegs 0x5121 (regs2 0 0))).2.2.2.2.2.1 (by decide)⟩,
   ⟨by decide, (C12_decode_masks (withRegs 0x9120 (regs2 0 0))).2.2.2.2.2.2.1 (by decide)⟩⟩

/-! ## What a cycle leaves unchanged -/

theorem lookup_some_mem {β : Type} (l : List (Nat × β)) (k : Nat) (h : β) :
    l.lookup k = some h → (k, h) ∈ l := by
  induction l with
  | nil => intro hl; simp [List.lookup] at hl
  | cons p l ih =>
    obtain ⟨k2, b⟩ := p
    intro hl
    simp only [List.lookup] at hl
    by_cases hk : k = k2
    · subst hk
      simp at hl
      subst hl
      exact List.mem_cons_self _ _
    · have hne : (k == k2) = false := by simpa using hk
      rw [hne] at hl
      exact List.mem_cons_of_mem _ (ih hl)

theorem Op_PopSubroutine_frame (c c1 : Chip) (h : Op_PopSubroutine c = some c1) :
    c1.mHeap = c.mHeap ∧ c1.mDisplayOutput = c.mDisplayOutput := by
  unfold Op_PopSubroutine at h
  split at h
  · exact absurd h (by simp)
  · obtain rfl := Option.some.inj h
    exact ⟨rfl, rfl⟩

theorem Op_SkipIfKeyPressed_frame (c c1 : Chip) (h : Op_SkipIfKeyPressed c = some c1) :
    c1.mHeap = c.mHeap ∧ c1.mDisplayOutput = c.mDisplayOutput := by
  unfold Op_SkipIfKeyPressed at h
  split at h
  · obtain rfl := Option.some.inj h
    exact ⟨rfl, rfl⟩
  · exact absurd h (by simp)

theorem Op_SkipIfKeyNotPressed_frame (c c1 : Chip) (h : Op_SkipIfKeyNotPressed c = some c1) :
    c1.mHeap = c.mHeap ∧ c1.mDisplayOutput = c.mDisplayOutput := by
  unfold Op_SkipIfKeyNotPressed at h
  split at h
  · obtain rfl := Option.some.inj h
    exact ⟨rfl, rfl⟩
  · exact absurd h (by simp)

theorem Op_BinaryToDecimal_display (c c1 : Chip) (h : Op_BinaryToDecimal c = some c1) :
    c1.mDisplayOutput = c.mDisplayOutput := by
  unfold Op_BinaryToDecimal at h
  simp only at h
  split at h
  · obtain rfl := Option.some.inj h
    rfl
  · exact absurd h (by simp)

theorem storeLoop_display (k : Nat) :
    ∀ (i : Nat) (c c1 : Chip), Op_StoreMemory.loop k i c = some c1 →
      c1.mDisplayOutput = c.mDisplayOutput := by
  induction k with
  | zero =>
    intro i c c1 h
    obtain rfl := Option.some.inj h
    rfl
  | succ k ih =>
    intro i c c1 h
    simp only [Op_StoreMemory.loop] at h
    split at h
    · have h2 := ih _ _ _ h
      exact h2
    · exact absurd h (by simp)

theorem loadLoop_frame (k : Nat) :
    ∀ (i : Nat) (c c1 : Chip), Op_LoadMemory.loop k i c = some c1 →
      c1.mHeap = c.mHeap ∧ c1.mDisplayOutput = c.mDisplayOutput := by
  induction k with
  | zero =>
    intro i c c1 h
    obtain rfl := Option.some.inj h
    exact ⟨rfl, rfl⟩
  | succ k ih =>
    intro i c c1 h
    simp only [Op_LoadMemory.loop] at h
    split at h
    · have h2 := ih _ _ _ h
      exact h2
    · exact absurd h (by simp)

theorem Op_StoreMemory_display (c c1 : Chip) (h : Op_StoreMemory c = some c1) :
    c1.mDisplayOutput = c.mDisplayOutput := by
  unfold Op_StoreMemory at h
  simp only [Option.map_eq_some'] at h
  obtain ⟨c2, hrun, hc1⟩ := h
  have := storeLoop_display _ _ _ _ hrun
  rw [← hc1]
  split_ifs <;> exact this

theorem Op_LoadMemory_frame (c c1 : Chip) (h : Op_LoadMemory c = some c1) :
    c1.mHeap = c.mHeap ∧ c1.mDisplayOutput = c.mDisplayOutput := by
  unfold Op_LoadMemory at h
  simp only [Option.map_eq_some'] at h
  obtain ⟨c2, hrun, hc1⟩ := h
  have := loadLoop_frame _ _ _ _ hrun
  rw [← hc1]
  split_ifs <;> exact this
theorem rowLoop_heap (startX startY : Nat) (k : Nat) :
    ∀ (row : Nat) (c c1 : Chip), Op_Draw.rowLoop startX startY k row c = some c1 →
      c1.mHeap = c.mHeap := by
  induction k with
  | zero =>
    intro row c c1 h
    obtain rfl := Option.some.inj h
    rfl
  | succ k ih =>
    intro row c c1 h
    simp only [Op_Draw.rowLoop] at h
    split at h
    · obtain rfl := Option.some.inj h
      rfl
    · split at h
      · have h2 := ih _ _ _ h
        rw [h2, colLoop_frame]
      · exact absurd h (by simp)

theorem Op_Draw_heap (c c1 : Chip) (h : Op_Draw c = some c1) : c1.mHeap = c.mHeap := by
  unfold Op_Draw at h
  have h2 := rowLoop_heap _ _ _ _ _ _ h
  exact h2

theorem Op_JumpWithOffset_frame (c : Chip) :
    (Op_JumpWithOffset c).mHeap = c.mHeap ∧
      (Op_JumpWithOffset c).mDisplayOutput = c.mDisplayOutput := by
  unfold Op_JumpWithOffset
  split_ifs <;> exact ⟨rfl, rfl⟩

theorem Op_GetKey_frame (c : Chip) :
    (Op_GetKey c).mHeap = c.mHeap ∧ (Op_GetKey c).mDisplayOutput = c.mDisplayOutput := by
  unfold Op_GetKey
  split <;> exact ⟨rfl, rfl⟩

theorem Execute_frame (rnd key : Nat) (c c1 : Chip) (h : Execute rnd key c = some c1) :
    (key = 0xF033 ∨ key = 0xF055 ∨ c1.mHeap = c.mHeap) ∧
    (key = 0x00E0 ∨ key = 0xD000 ∨ c1.mDisplayOutput = c.mDisplayOutput) := by
  unfold Execute at h
  cases hl : mOpcodeBindings.lookup key with
  | none =>
    rw [hl] at h
    obtain rfl := Option.some.inj h
    exact ⟨Or.inr (Or.inr rfl), Or.inr (Or.inr rfl)⟩
  | some handler =>
    rw [hl] at h
    have hm := lookup_some_mem _ _ _ hl
    simp only [mOpcodeBindings, List.mem_cons, Prod.mk.injEq, List.mem_singleton] at hm
    repeat' (first | (rcases hm with ⟨rfl, rfl⟩ | hm) | (rcases hm with ⟨rfl, rfl⟩))
    all_goals simp only at h
    all_goals first
      | (obtain rfl := Option.some.inj h
         exact ⟨Or.inr (Or.inr rfl), Or.inr (Or.inr rfl)⟩)
      | (obtain rfl := Option.some.inj h
         exact ⟨Or.inr (Or.inr rfl), Or.inl rfl⟩)
      | (obtain rfl := Option.some.inj h
         exact ⟨Or.inr (Or.inr (Op_JumpWithOffset_frame c).1),
           Or.inr (Or.inr (Op_JumpWithOffset_frame c).2)⟩)
      | (obtain rfl := Option.some.inj h
         exact ⟨Or.inr (Or.inr (Op_GetKey_frame c).1), Or.inr (Or.inr (Op_GetKey_frame c).2)⟩)
      | exact ⟨Or.inr (Or.inr (Op_PopSubroutine_frame c c1 h).1),
          Or.inr (Or.inr (Op_PopSubroutine_frame c c1 h).2)⟩
      | exact ⟨Or.inr (Or.inr (Op_SkipIfKeyPressed_frame c c1 h).1),
          Or.inr (Or.inr (Op_SkipIfKeyPressed_frame c c1 h).2)⟩
      | exact ⟨Or.inr (Or.inr (Op_SkipIfKeyNotPressed_frame c c1 h).1),
          Or.inr (Or.inr (Op_SkipIfKeyNotPressed_frame c c1 h).2)⟩
      | exact ⟨Or.inl rfl, Or.inr (Or.inr (Op_BinaryToDecimal_display c c1 h))⟩
      | exact ⟨Or.inr (Or.inl rfl), Or.inr (Or.inr (Op_StoreMemory_display c c1 h))⟩
      | exact ⟨Or.inr (Or.inr (Op_LoadMemory_frame c c1 h).1),
          Or.inr (Or.inr (Op_LoadMemory_frame c c1 h).2)⟩
      | exact ⟨Or.inr (Or.inr (Op_Draw_heap c c1 h)), Or.inr (Or.inl rfl)⟩

/-! ## Pixels stay on or off -/

theorem Fetch_frame (c c0 : Chip) (h : Fetch c = some c0) :
    c0.mHeap = c.mHeap ∧ c0.mDisplayOutput = c.mDisplayOutput ∧
      c0.mIndexRegister = c.mIndexRegister := by
  unfold Fetch at h
  split at h
  · obtain rfl := Option.some.inj h
    exact ⟨rfl, rfl, rfl⟩
  · exact absurd h (by simp)

theorem Process_some (rnd : Nat) (c c1 : Chip) (h : Process rnd c = some c1) :
    ∃ c0, Fetch c = some c0 ∧ Execute rnd (Decode c0) c0 = some c1 := by
  unfold Process at h
  cases hf : Fetch c with
  | none => rw [hf] at h; exact absurd h (by simp)
  | some c0 => rw [hf] at h; exact ⟨c0, rfl, h⟩

theorem xor_ones_on_off (v : Nat) (h : v = 0 ∨ v = 0xFFFFFFFF) :
    v ^^^ 0xFFFFFFFF = 0 ∨ v ^^^ 0xFFFFFFFF = 0xFFFFFFFF := by
  rcases h with h | h <;> rw [h] <;> decide

theorem rowLoop_on_off (startX startY : Nat) (hsx : startX ≤ 63) (k : Nat) :
    ∀ (row : Nat) (c c1 : Chip), Op_Draw.rowLoop startX startY k row c = some c1 →
      DisplayOnOff c → DisplayOnOff c1 := by
  induction k with
  | zero =>
    intro row c c1 h hbin
    obtain rfl := Option.some.inj h
    exact hbin
  | succ k ih =>
    intro row c c1 h hbin
    simp only [Op_Draw.rowLoop] at h
    split at h
    · obtain rfl := Option.some.inj h
      exact hbin
    · split at h
      · refine ih _ _ _ h ?_
        intro idx hidx
        rw [colLoop_display startX _ _ hsx 8 0 c idx (by omega)]
        split_ifs
        · exact xor_ones_on_off _ (hbin idx hidx)
        · exact hbin idx hidx
      · exact absurd h (by simp)

theorem Op_Draw_on_off (c c1 : Chip) (h : Op_Draw c = some c1) (hbin : DisplayOnOff c) :
    DisplayOnOff c1 := by
  unfold Op_Draw at h
  have hsx : c.mVariableRegisters (GetX c) &&& (OUTPUT_WIDTH - 1) ≤ 63 := by
    simp only [OUTPUT_WIDTH, and_63]; omega
  exact rowLoop_on_off _ _ hsx _ _ _ _ h hbin

/-- Preservation of on/off pixels: from a state whose 64 * 32 pixels are each
0 or 0xFFFFFFFF, every state returned by one instruction cycle, whatever the
instruction, and the state after `DecrementTimers` again have every pixel 0
or 0xFFFFFFFF. -/
theorem pixels_stay_on_or_off (rnd : Nat) (c : Chip) (hbin : DisplayOnOff c) :
    (∀ c1, Process rnd c = some c1 → DisplayOnOff c1) ∧ DisplayOnOff (DecrementTimers c) := by
  constructor
  · intro c1 h
    obtain ⟨c0, hf, he⟩ := Process_some rnd c c1 h
    have hd0 : c0.mDisplayOutput = c.mDisplayOutput := (Fetch_frame c c0 hf).2.1
    have hbin0 : DisplayOnOff c0 := by
      intro idx hidx; rw [hd0]; exact hbin idx hidx
    rcases (Execute_frame rnd _ c0 c1 he).2 with hk | hk | hk
    · rw [hk] at he
      have h2 : some (Op_ClearScreen c0) = some c1 := he
      obtain rfl := Option.some.inj h2
      intro idx hidx
      left
      simp only [Op_ClearScreen, if_pos hidx]
    · rw [hk] at he
      have h2 : Op_Draw c0 = some c1 := he
      exact Op_Draw_on_off c0 c1 h2 hbin0
    · intro idx hidx
      rw [hk]
      exact hbin0 idx hidx
  · intro idx hidx
    have : (DecrementTimers c).mDisplayOutput = c.mDisplayOutput := by
      unfold DecrementTimers
      simp only
      split_ifs <;> rfl
    rw [this]
    exact hbin idx hidx

/-- Preservation of on/off pixels at `drawCycle`: the cycle fetches 0xD011 and
draws on a lit display. -/
theorem pixels_stay_on_or_off_at_drawCycle :
    DisplayOnOff drawCycle ∧ (Process 0 drawCycle).isSome = true ∧
    ((∀ c1, Process 0 drawCycle = some c1 → DisplayOnOff c1) ∧
      DisplayOnOff (DecrementTimers drawCycle)) :=
  ⟨fun _ _ => Or.inr rfl, by decide,
   pixels_stay_on_or_off 0 drawCycle (fun _ _ => Or.inr rfl)⟩

/-- C23 evaluated on a freshly constructed machine.  `mDisplayOutput` has no
initialiser and the constructor never writes it, so the display keeps what
its storage held: with 5 there before construction, pixel 0 is 5, neither 0
nor 0xFFFFFFFF, and it is still 5 after loading the program `A050` and
running its first cycle. -/
theorem C23_constructed_display_not_on_off :
    staleDisplay.mDisplayOutput 0 = 5 ∧
    ¬ DisplayOnOff staleDisplay ∧
    ((LoadROM [0xA0, 0x50] QuirkStorage.ResetToDefault staleDisplay).bind (Process 0)).map
      (fun c => c.mDisplayOutput 0) = some 5 := by
  refine ⟨by decide, ?_, by decide⟩
  intro h
  rcases h 0 (by decide) with h0 | h0
  · exact absurd h0 (by decide)
  · exact absurd h0 (by decide)

/-! ## Display indices of the draw instruction -/

theorem colTrace_lt (startX currentY : Nat) (hy : currentY < 32) (k : Nat) :
    ∀ (col idx : Nat), idx ∈ Op_Draw.colTrace startX currentY k col → idx < 2048 := by
  induction k with
  | zero => intro col idx h; simp [Op_Draw.colTrace] at h
  | succ k ih =>
    intro col idx h
    simp only [Op_Draw.colTrace, OUTPUT_WIDTH] at h
    split at h
    · simp at h
    · rcases List.mem_cons.1 h with h1 | h1
      · omega
      · exact ih _ _ h1

theorem colTrace_length (startX currentY : Nat) (k : Nat) :
    ∀ col : Nat, (Op_Draw.colTrace startX currentY k col).length ≤ k := by
  induction k with
  | zero => intro col; simp [Op_Draw.colTrace]
  | succ k ih =>
    intro col
    simp only [Op_Draw.colTrace]
    split
    · simp
    · have := ih (col + 1)
      simp only [List.length_cons]
      omega

theorem rowTrace_lt (index startX startY : Nat) (k : Nat) :
    ∀ (row idx : Nat), idx ∈ Op_Draw.rowTrace index startX startY k row → idx < 2048 := by
  induction k with
  | zero => intro row idx h; simp [Op_Draw.rowTrace] at h
  | succ k ih =>
    intro row idx h
    simp only [Op_Draw.rowTrace, OUTPUT_HEIGHT] at h
    split at h
    · simp at h
    · split at h
      · rcases List.mem_append.1 h with h1 | h1
        · exact colTrace_lt _ _ (by omega) _ _ _ h1
        · exact ih _ _ h1
      · simp at h

theorem rowTrace_length (index startX startY : Nat) (k : Nat) :
    ∀ row : Nat, (Op_Draw.rowTrace index startX startY k row).length ≤ k * 8 := by
  induction k with
  | zero => intro row; simp [Op_Draw.rowTrace]
  | succ k ih =>
    intro row
    simp only [Op_Draw.rowTrace]
    split
    · simp
    · split
      · have h1 := ih (row + 1)
        have h2 := colTrace_length startX ((startY + row) % 256) 8 0
        simp only [List.length_append]
        omega
      · simp

theorem colLoop_outside_trace (startX currentY spriteByte : Nat) (k : Nat) :
    ∀ (col : Nat) (c : Chip) (idx : Nat), idx ∉ Op_Draw.colTrace startX currentY k col →
      (Op_Draw.colLoop startX currentY spriteByte k col c).mDisplayOutput idx
        = c.mDisplayOutput idx := by
  induction k with
  | zero => intro col c idx _; rfl
  | succ k ih =>
    intro col c idx h
    simp only [Op_Draw.colTrace] at h
    simp only [Op_Draw.colLoop]
    split at h
    · rename_i hb
      rw [if_pos hb]
    · rename_i hb
      rw [if_neg hb]
      have hne : idx ≠ currentY * OUTPUT_WIDTH + (startX + col) % 256 :=
        fun e => h (e ▸ List.mem_cons_self _ _)
      have hrest : idx ∉ Op_Draw.colTrace startX currentY k (col + 1) :=
        fun e => h (List.mem_cons_of_mem _ e)
      rw [ih _ _ idx hrest]
      simp only [write, if_neg hne]

theorem rowLoop_outside_trace (startX startY : Nat) (k : Nat) :
    ∀ (row : Nat) (c c1 : Chip), Op_Draw.rowLoop startX startY k row c = some c1 →
      ∀ idx, idx ∉ Op_Draw.rowTrace c.mIndexRegister startX startY k row →
        c1.mDisplayOutput idx = c.mDisplayOutput idx := by
  induction k with
  | zero =>
    intro row c c1 h idx _
    obtain rfl := Option.some.inj h
    rfl
  | succ k ih =>
    intro row c c1 h idx hidx
    simp only [Op_Draw.rowLoop] at h
    simp only [Op_Draw.rowTrace] at hidx
    split at h
    · obtain rfl := Option.some.inj h
      rfl
    · rename_i hb
      rw [if_neg hb] at hidx
      split at h
      · rename_i hm
        rw [if_pos hm] at hidx
        have hI : (Op_Draw.colLoop startX ((startY + row) % 256)
            (c.mHeap (c.mIndexRegister + row)) 8 0 c).mIndexRegister = c.mIndexRegister := by
          rw [colLoop_frame]
        have h1 : idx ∉ Op_Draw.colTrace startX ((startY + row) % 256) 8 0 :=
          fun e => hidx (List.mem_append.2 (Or.inl e))
        have h2 : idx ∉ Op_Draw.rowTrace c.mIndexRegister startX startY k (row + 1) :=
          fun e => hidx (List.mem_append.2 (Or.inr e))
        have h3 := ih _ _ _ h idx (by rw [hI]; exact h2)
        rw [h3]
        exact colLoop_outside_trace _ _ _ _ _ _ _ h1
      · exact absurd h (by simp)

/-- C24 (display indices of Op_Draw): run with each display access checked
against the size 64 * 32 of the buffer, Op_Draw never leaves the buffer, and
the checked run returns the state of `Op_Draw` together with the indices
`Op_Draw.trace` it read and wrote; each of these is below 64 * 32; there are
at most N * 8 of them, with N at most 15, so the loops stop after at most
N * 8 pixel updates; the 8-bit sums startX + col and startY + row stay at or
below 255; and a returned state differs from the given one in no pixel
outside those indices. -/
theorem C24_draw_display_indices (c : Chip) :
    (∀ idx ∈ Op_Draw.trace c, idx < OUTPUT_WIDTH * OUTPUT_HEIGHT) ∧
    (Op_Draw.trace c).length ≤ GetN c * 8 ∧
    GetN c ≤ 15 ∧
    (∀ col < 8, (c.mVariableRegisters (GetX c) &&& (OUTPUT_WIDTH - 1)) + col ≤ 255) ∧
    (∀ row < GetN c, (c.mVariableRegisters (GetY c) &&& (OUTPUT_HEIGHT - 1)) + row ≤ 255) ∧
    (∀ c1, Op_Draw c = some c1 → ∀ idx, idx ∉ Op_Draw.trace c →
      c1.mDisplayOutput idx = c.mDisplayOutput idx) ∧
    Op_Draw.checked c ≠ DrawResult.displayFault ∧
    (Op_Draw.checked c = DrawResult.heapFault ↔ Op_Draw c = none) ∧
    (∀ c1, Op_Draw c = some c1 →
      Op_Draw.checked c = DrawResult.ok c1 (Op_Draw.trace c)) := by
  have hn : GetN c ≤ 15 := by rw [GetN_eq]; omega
  have hsx : c.mVariableRegisters (GetX c) &&& (OUTPUT_WIDTH - 1) ≤ 63 := by
    simp only [OUTPUT_WIDTH, and_63]; omega
  have hsy : c.mVariableRegisters (GetY c) &&& (OUTPUT_HEIGHT - 1) ≤ 31 := by
    simp only [OUTPUT_HEIGHT, and_31]; omega
  have hcol : ∀ (startX currentY spriteByte : Nat), currentY < 32 →
      ∀ (k col : Nat) (d : Chip) (log : List Nat),
        Op_Draw.colLoopChecked startX currentY spriteByte k col d log
          = DrawResult.ok (Op_Draw.colLoop startX currentY spriteByte k col d)
              (log ++ Op_Draw.colTrace startX currentY k col) := by
    intro startX currentY spriteByte hy k
    induction k with
    | zero =>
      intro col d log
      simp only [Op_Draw.colLoopChecked, Op_Draw.colLoop, Op_Draw.colTrace, List.append_nil]
    | succ k ih =>
      intro col d log
      simp only [Op_Draw.colLoopChecked, Op_Draw.colLoop, Op_Draw.colTrace]
      by_cases hb : (startX + col) % 256 ≥ OUTPUT_WIDTH
      · simp only [if_pos hb, List.append_nil]
      · have hin : currentY * OUTPUT_WIDTH + (startX + col) % 256
            < OUTPUT_WIDTH * OUTPUT_HEIGHT := by
          simp only [OUTPUT_WIDTH, OUTPUT_HEIGHT] at hb ⊢
          omega
        simp only [if_neg hb, if_pos hin]
        rw [ih, List.append_assoc]
        rfl
  have hrow : ∀ (startX startY k row : Nat) (d : Chip) (log : List Nat),
      Op_Draw.rowLoopChecked startX startY k row d log =
        match Op_Draw.rowLoop startX startY k row d with
        | some d1 => DrawResult.ok d1
            (log ++ Op_Draw.rowTrace d.mIndexRegister startX startY k row)
        | none => DrawResult.heapFault := by
    intro startX startY k
    induction k with
    | zero =>
      intro row d log
      simp only [Op_Draw.rowLoopChecked, Op_Draw.rowLoop, Op_Draw.rowTrace, List.append_nil]
    | succ k ih =>
      intro row d log
      simp only [Op_Draw.rowLoopChecked, Op_Draw.rowLoop, Op_Draw.rowTrace]
      by_cases hb : (startY + row) % 256 ≥ OUTPUT_HEIGHT
      · simp only [if_pos hb, List.append_nil]
      · by_cases hm : d.mIndexRegister + row < HEAP_SIZE
        · have hy : (startY + row) % 256 < 32 := by
            simp only [OUTPUT_HEIGHT] at hb; omega
          have hI : (Op_Draw.colLoop startX ((startY + row) % 256)
              (d.mHeap (d.mIndexRegister + row)) 8 0 d).mIndexRegister = d.mIndexRegister := by
            rw [colLoop_frame]
          simp only [if_neg hb, if_pos hm]
          rw [hcol _ _ _ hy]
          simp only
          rw [ih, hI, List.append_assoc]
        · simp only [if_neg hb, if_neg hm]
  have hmain := hrow (c.mVariableRegisters (GetX c) &&& (OUTPUT_WIDTH - 1))
    (c.mVariableRegisters (GetY c) &&& (OUTPUT_HEIGHT - 1)) (GetN c) 0
    { c with mVariableRegisters := write c.mVariableRegisters 0xF 0 } []
  have hchk : Op_Draw.checked c =
      match Op_Draw c with
      | some d1 => DrawResult.ok d1 (Op_Draw.trace c)
      | none => DrawResult.heapFault := by
    unfold Op_Draw.checked Op_Draw Op_Draw.trace
    simp only [hmain, List.nil_append]
  refine ⟨?_, rowTrace_length _ _ _ _ _, hn, ?_, ?_, ?_, ?_, ?_, ?_⟩
  · intro idx h
    exact rowTrace_lt _ _ _ _ _ _ h
  · intro col hcol2; omega
  · intro row hrow2; omega
  · intro c1 h idx hidx
    unfold Op_Draw at h
    have h2 := rowLoop_outside_trace _ _ _ _ _ _ h idx hidx
    exact h2
  · rw [hchk]
    cases Op_Draw c <;> simp
  · rw [hchk]
    cases Op_Draw c <;> simp
  · intro c1 h
    rw [hchk, h]

/-- C24 at `drawOff`: one sprite row at (0, 0) touches the indices 0 to 7. -/
theorem C24_draw_display_indices_witness :
    Op_Draw.trace drawOff = [0, 1, 2, 3, 4, 5, 6, 7] ∧
    ((∀ idx ∈ Op_Draw.trace drawOff, idx < OUTPUT_WIDTH * OUTPUT_HEIGHT) ∧
    (Op_Draw.trace drawOff).length ≤ GetN drawOff * 8 ∧
    GetN drawOff ≤ 15 ∧
    (∀ col < 8,
      (drawOff.mVariableRegisters (GetX drawOff) &&& (OUTPUT_WIDTH - 1)) + col ≤ 255) ∧
    (∀ row < GetN drawOff,
      (drawOff.mVariableRegisters (GetY drawOff) &&& (OUTPUT_HEIGHT - 1)) + row ≤ 255) ∧
    (∀ c1, Op_Draw drawOff = some c1 → ∀ idx, idx ∉ Op_Draw.trace drawOff →
      c1.mDisplayOutput idx = drawOff.mDisplayOutput idx) ∧
    Op_Draw.checked drawOff ≠ DrawResult.displayFault ∧
    (Op_Draw.checked drawOff = DrawResult.heapFault ↔ Op_Draw drawOff = none) ∧
    (∀ c1, Op_Draw drawOff = some c1 →
      Op_Draw.checked drawOff = DrawResult.ok c1 (Op_Draw.trace drawOff))) :=
  ⟨by decide, C24_draw_display_indices drawOff⟩

/-! ## The font region -/

theorem Op_BinaryToDecimal_outside (c c1 : Chip) (h : Op_BinaryToDecimal c = some c1) :
    ∀ a, (a < c.mIndexRegister ∨ c.mIndexRegister + 2 < a) → c1.mHeap a = c.mHeap a := by
  unfold Op_BinaryToDecimal at h
  simp only at h
  split at h
  · obtain rfl := Option.some.inj h
    intro a ha
    simp only [write]
    rw [if_neg (by omega), if_neg (by omega), if_neg (by omega)]
  · exact absurd h (by simp)

theorem storeLoop_outside (k : Nat) :
    ∀ (i : Nat) (c c1 : Chip), Op_StoreMemory.loop k i c = some c1 →
      c1.mIndexRegister = c.mIndexRegister ∧
      ∀ a, (a < c.mIndexRegister + i ∨ c.mIndexRegister + i + k ≤ a) →
        c1.mHeap a = c.mHeap a := by
  induction k with
  | zero =>
    intro i c c1 h
    obtain rfl := Option.some.inj h
    exact ⟨rfl, fun _ _ => rfl⟩
  | succ k ih =>
    intro i c c1 h
    simp only [Op_StoreMemory.loop] at h
    split at h
    · obtain ⟨h1, h2⟩ := ih _ _ _ h
      refine ⟨h1, ?_⟩
      intro a ha
      have h3 := h2 a (by
        show a < c.mIndexRegister + (i + 1) ∨ c.mIndexRegister + (i + 1) + k ≤ a
        omega)
      rw [h3]
      simp only [write]
      rw [if_neg (by omega)]
    · exact absurd h (by simp)

theorem Op_StoreMemory_outside (c c1 : Chip) (h : Op_StoreMemory c = some c1) :
    ∀ a, (a < c.mIndexRegister ∨ c.mIndexRegister + GetX c < a) → c1.mHeap a = c.mHeap a := by
  unfold Op_StoreMemory at h
  simp only [Option.map_eq_some'] at h
  obtain ⟨c2, hrun, hc1⟩ := h
  obtain ⟨_, h2⟩ := storeLoop_outside _ _ _ _ hrun
  intro a ha
  have h3 := h2 a (by omega)
  rw [← hc1]
  split_ifs <;> exact h3

theorem DecrementTimers_heap (c : Chip) : (DecrementTimers c).mHeap = c.mHeap := by
  unfold DecrementTimers
  simp only
  split_ifs <;> rfl

/-- C21 as stated fails: in the constructed machine with the program
`A050 F033` loaded, memory[0x50] holds the font byte 0xF0 after loading and
after the first cycle (which sets the index register to 0x50), and the
second cycle, FX33, overwrites it with 0. -/
theorem C21_font_overwritten_by_FX33 :
    romFont.map (fun c => c.mHeap 0x50) = some 0xF0 ∧
    (romFont.bind (Process 0)).map (fun c => (c.mIndexRegister, c.mHeap 0x50))
      = some (0x50, 0xF0) ∧
    ((romFont.bind (Process 0)).bind (Process 0)).map (fun c => c.mHeap 0x50) = some 0 := by
  decide

/-- C21, amended: after construction the 80 bytes from 0x50 on hold
`gFontData`; `DecrementTimers` changes no memory byte; a cycle whose
instruction is neither FX33 nor FX55 changes no memory byte; a cycle that
executes FX33 changes no byte outside [I, I + 2] and one that executes FX55
no byte outside [I, I + X]. -/
theorem C21_font_region (rnd : Nat) (heap0 display0 : Nat → Nat) (c : Chip) :
    (gFontData.length = 80 ∧
      ∀ i < 80, (Chip.construct heap0 display0).mHeap (0x50 + i) = gFontData.getD i 0) ∧
    (∀ a, (DecrementTimers c).mHeap a = c.mHeap a) ∧
    (∀ c0 c1, Fetch c = some c0 → Process rnd c = some c1 →
      (Decode c0 ≠ 0xF033 → Decode c0 ≠ 0xF055 → ∀ a, c1.mHeap a = c.mHeap a) ∧
      (Decode c0 = 0xF033 →
        ∀ a, (a < c.mIndexRegister ∨ c.mIndexRegister + 2 < a) → c1.mHeap a = c.mHeap a) ∧
      (Decode c0 = 0xF055 →
        ∀ a, (a < c.mIndexRegister ∨ c.mIndexRegister + GetX c0 < a) →
          c1.mHeap a = c.mHeap a)) := by
  refine ⟨⟨rfl, ?_⟩, ?_, ?_⟩
  · intro i hi
    simp only [Chip.construct]
    rw [if_pos ⟨by omega, by simp [gFontData]; omega⟩]
    congr 1
    omega
  · intro a; rw [DecrementTimers_heap]
  · intro c0 c1 hf hp
    obtain ⟨c0b, hf2, he⟩ := Process_some rnd c c1 hp
    rw [hf] at hf2
    obtain rfl := Option.some.inj hf2
    obtain ⟨hheap, _, hI⟩ := Fetch_frame c c0 hf
    refine ⟨?_, ?_, ?_⟩
    · intro h1 h2 a
      rcases (Execute_frame rnd _ c0 c1 he).1 with hk | hk | hk
      · exact absurd hk h1
      · exact absurd hk h2
      · rw [hk, hheap]
    · intro hk a ha
      rw [hk] at he
      have h2 : Op_BinaryToDecimal c0 = some c1 := he
      rw [Op_BinaryToDecimal_outside c0 c1 h2 a (by rw [hI]; exact ha), hheap]
    · intro hk a ha
      rw [hk] at he
      have h2 : Op_StoreMemory c0 = some c1 := he
      rw [Op_StoreMemory_outside c0 c1 h2 a (by rw [hI]; exact ha), hheap]

/-- C21 (amended) at `drawCycle`, whose cycle is a draw and returns. -/
theorem C21_font_region_witness :
    (Process 0 drawCycle).isSome = true ∧
    ((gFontData.length = 80 ∧
      ∀ i < 80, (Chip.construct (fun _ => 0) (fun _ => 0)).mHeap (0x50 + i)
        = gFontData.getD i 0) ∧
    (∀ a, (DecrementTimers drawCycle).mHeap a = drawCycle.mHeap a) ∧
    (∀ c0 c1, Fetch drawCycle = some c0 → Process 0 drawCycle = some c1 →
      (Decode c0 ≠ 0xF033 → Decode c0 ≠ 0xF055 → ∀ a, c1.mHeap a = drawCycle.mHeap a) ∧
      (Decode c0 = 0xF033 →
        ∀ a, (a < drawCycle.mIndexRegister ∨ drawCycle.mIndexRegister + 2 < a) →
          c1.mHeap a = drawCycle.mHeap a) ∧
      (Decode c0 = 0xF055 →
        ∀ a, (a < drawCycle.mIndexRegister ∨ drawCycle.mIndexRegister + GetX c0 < a) →
          c1.mHeap a = drawCycle.mHeap a))) :=
  ⟨by decide, C21_font_region 0 (fun _ => 0) (fun _ => 0) drawCycle⟩

/-! ## Memory addresses -/

end Chip8
